import Mathlib

/-!
Shallow embedding of the chess rules engine and position codec of the
repository (src/src/lib/chess-engine.ts, src/src/lib/chess-utils.ts, types
from src/unnamed/part_000), together with proofs settling the frozen claims.

Conventions of the embedding:
* JavaScript numbers used as board coordinates are modelled as `Int`.
* A board is a list of rows; each cell is `Option ChessPiece` (`null` ↦ `none`).
* TypeScript optional fields (`hasMoved?`, `isCastling?`, …) are modelled as
  `Option _` where the `undefined` value is observable, and as `Bool` for
  `hasMoved` (the source only ever tests its truthiness, and `undefined` is
  falsy).
* A TypeScript `piece.type` is `Option PieceType`: the FEN parser can build a
  piece whose `type` is `undefined` (unrecognized letter), and the engine's
  `switch` sends such a piece to its `default: return false` branch.
* Functions that can throw in JS (out-of-bounds `undefined[...]` accesses in
  the FEN parser, the non-null assertion in `makeMove`) return `Option _`,
  with `none` modelling the thrown error.
-/

namespace Chess

/-- source: PieceType in src/unnamed/part_000 -/
inductive PieceType
  | king | queen | rook | bishop | knight | pawn
deriving DecidableEq, Repr

/-- source: PieceColor -/
inductive PieceColor
  | white | black
deriving DecidableEq, Repr

/-- source: ChessPiece.  `type` is `Option PieceType` because the FEN parser
(`FENCharToPiece`) stores `undefined` for an unrecognized letter. -/
structure ChessPiece where
  type : Option PieceType
  color : PieceColor
  id : String
  hasMoved : Bool
deriving DecidableEq, Repr

/-- source: Position (row, col ∈ [0,7] for on-board squares) -/
structure Position where
  row : Int
  col : Int
deriving DecidableEq, Repr

abbrev Board := List (List (Option ChessPiece))

/-- source: GameState.gameStatus union type -/
inductive GameStatus
  | playing | check | checkmate | stalemate | draw
deriving DecidableEq, Repr

/-- source: ChessMove.  The source's `from`/`to` fields are Lean keywords and
are embedded as `fromPos`/`toPos`; the source's `notation` field is a Lean
keyword and is embedded as `moveText`. -/
structure ChessMove where
  fromPos : Position
  toPos : Position
  piece : ChessPiece
  capturedPiece : Option ChessPiece
  isCheck : Option Bool
  isCheckmate : Option Bool
  isStalemate : Option Bool
  isCastling : Option Bool
  isEnPassant : Option Bool
  promotion : Option PieceType
  moveText : String
deriving DecidableEq, Repr

/-- source: GameState.castlingRights -/
structure CastlingRights where
  whiteKingSide : Bool
  whiteQueenSide : Bool
  blackKingSide : Bool
  blackQueenSide : Bool
deriving DecidableEq, Repr

/-- source: GameState -/
structure GameState where
  board : Board
  currentPlayer : PieceColor
  moveHistory : List ChessMove
  capturedPieces : List ChessPiece
  gameStatus : GameStatus
  winner : Option PieceColor
  lastMove : Option ChessMove
  enPassantTarget : Option Position
  castlingRights : CastlingRights
deriving DecidableEq, Repr

/-- source: isValidPosition (chess-utils.ts) -/
def isValidPosition (pos : Position) : Bool :=
  0 ≤ pos.row && pos.row < 8 && 0 ≤ pos.col && pos.col < 8

/-- source: positionsEqual (chess-utils.ts) -/
def positionsEqual (a b : Position) : Bool :=
  a.row == b.row && a.col == b.col

/-- Raw 2-D array access `board[r][c]`.  A missing row (`board[r]` being
`undefined`) makes the JS source throw; that case is unreachable on 8×8
boards and is modelled as `none` here.  A present row that is too short
yields `undefined` ↦ `none`, as in JS. -/
def bget (b : Board) (r c : Int) : Option ChessPiece :=
  if 0 ≤ r ∧ 0 ≤ c then (((b.get? r.toNat).getD []).get? c.toNat).getD none
  else none

/-- Raw 2-D array assignment `board[r][c] = v`.  Out-of-range assignments are
modelled as no-ops (in JS they would extend the array with cells that the
bounds-checked readers never see). -/
def bset (b : Board) (r c : Int) (v : Option ChessPiece) : Board :=
  if 0 ≤ r ∧ 0 ≤ c then
    b.set r.toNat (((b.get? r.toNat).getD []).set c.toNat v)
  else b

/-- source: getPieceAt (chess-utils.ts) -/
def getPieceAt (b : Board) (pos : Position) : Option ChessPiece :=
  if isValidPosition pos then bget b pos.row pos.col else none

/-- The row-major list of all 64 board squares, as enumerated by the source's
`for (row …) for (col …)` loops. -/
def squaresRM : List Position :=
  (List.range 8).flatMap fun r => (List.range 8).map fun c => ⟨(r : Int), (c : Int)⟩

/-- Inline `color === 'white' ? 'black' : 'white'` from the source. -/
def flipColor : PieceColor → PieceColor
  | .white => .black
  | .black => .white

/-- source: ChessEngine.isPawnMoveValid -/
def isPawnMoveValid (piece : ChessPiece) (fromPos toPos : Position)
    (gs : GameState) : Bool :=
  let direction : Int := if piece.color = .white then -1 else 1
  let rowDiff := toPos.row - fromPos.row
  let colDiff := toPos.col - fromPos.col
  let targetPiece := getPieceAt gs.board toPos
  if colDiff = 0 ∧ targetPiece.isSome then false
  else if colDiff = 0 ∧ rowDiff = direction then true
  else if colDiff = 0 ∧ rowDiff = 2 * direction ∧
      ((piece.color = .white ∧ fromPos.row = 6) ∨
       (piece.color = .black ∧ fromPos.row = 1)) then true
  else if colDiff.natAbs == 1 && rowDiff == direction &&
      (match targetPiece with
       | some t => !(t.color == piece.color)
       | none => false) then true
  else if colDiff.natAbs == 1 && rowDiff == direction &&
      (match gs.enPassantTarget with
       | some ep => positionsEqual toPos ep
       | none => false) then true
  else false

/-- Step-bounded version of the source's `while` loop in `isPathClear`.  For
the aligned from/to pairs the engine actually passes, the bound
`max |Δrow| |Δcol|` makes this identical to the source loop; for misaligned
pairs (which the source never produces, and on which the JS loop would not
terminate) the recursion stops and answers `true`. -/
def isPathClearGo (board : Board) (rowStep colStep toR toC : Int) :
    Nat → Int → Int → Bool
  | 0, _, _ => true
  | n + 1, r, c =>
    if r = toR ∧ c = toC then true
    else if (bget board r c).isSome then false
    else isPathClearGo board rowStep colStep toR toC n (r + rowStep) (c + colStep)

/-- source: ChessEngine.isPathClear -/
def isPathClear (fromPos toPos : Position) (board : Board) : Bool :=
  let rowStep : Int :=
    if toPos.row = fromPos.row then 0 else if toPos.row > fromPos.row then 1 else -1
  let colStep : Int :=
    if toPos.col = fromPos.col then 0 else if toPos.col > fromPos.col then 1 else -1
  isPathClearGo board rowStep colStep toPos.row toPos.col
    (max (toPos.row - fromPos.row).natAbs (toPos.col - fromPos.col).natAbs)
    (fromPos.row + rowStep) (fromPos.col + colStep)

/-- source: ChessEngine.isCastlingValid, parameterized by the attack oracle it
calls (`isSquareUnderAttack`); the parameter breaks the source's mutual
recursion between attack scanning and castling validation. -/
def isCastlingValidAux (attack : Position → PieceColor → GameState → Bool)
    (piece : ChessPiece) (fromPos toPos : Position) (gs : GameState) : Bool :=
  if piece.hasMoved then false
  else if fromPos.row ≠ toPos.row then false
  else
    let isKingSide : Bool := decide (fromPos.col < toPos.col)
    let rookCol : Int := if isKingSide then 7 else 0
    match getPieceAt gs.board ⟨fromPos.row, rookCol⟩ with
    | none => false
    | some rook =>
      if rook.type ≠ some .rook ∨ rook.color ≠ piece.color ∨ rook.hasMoved then
        false
      else
        let rights := gs.castlingRights
        let rightsOk : Bool :=
          if piece.color = .white then
            (if isKingSide then rights.whiteKingSide else rights.whiteQueenSide)
          else
            (if isKingSide then rights.blackKingSide else rights.blackQueenSide)
        if !rightsOk then false
        else
          let start := min fromPos.col rookCol
          let stop := max fromPos.col rookCol
          let between := (List.range (stop - start - 1).toNat).map
            fun i => start + 1 + (i : Int)
          if between.any (fun col => (bget gs.board fromPos.row col).isSome) then
            false
          else
            let kingPath :=
              if isKingSide then [fromPos.col, fromPos.col + 1, fromPos.col + 2]
              else [fromPos.col, fromPos.col - 1, fromPos.col - 2]
            if kingPath.any
                (fun col => attack ⟨fromPos.row, col⟩ (flipColor piece.color) gs) then
              false
            else true

/-- source: ChessEngine.isPieceMovementValid, parameterized like
`isCastlingValidAux`.  A piece with `undefined` type falls to the `switch`'s
`default` branch, i.e. `false`. -/
def isPieceMovementValidAux (attack : Position → PieceColor → GameState → Bool)
    (piece : ChessPiece) (fromPos toPos : Position) (gs : GameState) : Bool :=
  let rowDiff := toPos.row - fromPos.row
  let colDiff := toPos.col - fromPos.col
  let absRowDiff := rowDiff.natAbs
  let absColDiff := colDiff.natAbs
  match piece.type with
  | some .pawn => isPawnMoveValid piece fromPos toPos gs
  | some .rook =>
    if rowDiff ≠ 0 ∧ colDiff ≠ 0 then false else isPathClear fromPos toPos gs.board
  | some .bishop =>
    if absRowDiff ≠ absColDiff then false else isPathClear fromPos toPos gs.board
  | some .queen =>
    if rowDiff ≠ 0 ∧ colDiff ≠ 0 ∧ absRowDiff ≠ absColDiff then false
    else isPathClear fromPos toPos gs.board
  | some .knight =>
    decide ((absRowDiff = 2 ∧ absColDiff = 1) ∨ (absRowDiff = 1 ∧ absColDiff = 2))
  | some .king =>
    if absRowDiff ≤ 1 ∧ absColDiff ≤ 1 then true
    else isCastlingValidAux attack piece fromPos toPos gs
  | none => false

/-- source: ChessEngine.isSquareUnderAttack.  The fuel bounds the depth of the
source's (unbounded, stack-based) mutual recursion
`isSquareUnderAttack → isPieceMovementValid → isCastlingValid →
isSquareUnderAttack`; on the positions the engine reaches the recursion depth
is at most 2, far below `engineFuel`. -/
def isSquareUnderAttackF : Nat → Position → PieceColor → GameState → Bool
  | 0, _, _, _ => false
  | fuel + 1, position, byColor, gs =>
    squaresRM.any fun sq =>
      match bget gs.board sq.row sq.col with
      | none => false
      | some piece =>
        if piece.color = byColor then
          if piece.type = some .pawn then
            let direction : Int := if piece.color = .white then -1 else 1
            let pawnAttacks : List Position :=
              [⟨sq.row + direction, sq.col - 1⟩, ⟨sq.row + direction, sq.col + 1⟩]
            pawnAttacks.any fun ap => isValidPosition ap && positionsEqual ap position
          else
            isPieceMovementValidAux (isSquareUnderAttackF fuel) piece sq position gs
        else false

def engineFuel : Nat := 16

/-- source: ChessEngine.isSquareUnderAttack (public entry point) -/
def isSquareUnderAttack (position : Position) (byColor : PieceColor)
    (gs : GameState) : Bool :=
  isSquareUnderAttackF engineFuel position byColor gs

/-- source: ChessEngine.isPieceMovementValid (entry point) -/
def isPieceMovementValid (piece : ChessPiece) (fromPos toPos : Position)
    (gs : GameState) : Bool :=
  isPieceMovementValidAux isSquareUnderAttack piece fromPos toPos gs

/-- source: ChessEngine.isCastlingValid (entry point) -/
def isCastlingValid (piece : ChessPiece) (fromPos toPos : Position)
    (gs : GameState) : Bool :=
  isCastlingValidAux isSquareUnderAttack piece fromPos toPos gs

/-- source: ChessEngine.makeTemporaryMove -/
def makeTemporaryMove (fromPos toPos : Position) (gs : GameState) : GameState :=
  let piece := bget gs.board fromPos.row fromPos.col
  let b1 := bset gs.board toPos.row toPos.col piece
  let b2 := bset b1 fromPos.row fromPos.col none
  { gs with board := b2 }

/-- The row-major king search inside source `ChessEngine.isInCheck`. -/
def findKingSq (b : Board) (c : PieceColor) : Option Position :=
  squaresRM.find? fun sq =>
    match bget b sq.row sq.col with
    | some p => p.type == some .king && p.color == c
    | none => false

/-- source: ChessEngine.isInCheck -/
def isInCheck (gs : GameState) : Bool :=
  let kingColor := gs.currentPlayer
  let opponentColor := flipColor kingColor
  match findKingSq gs.board kingColor with
  | none => false
  | some kingPosition => isSquareUnderAttack kingPosition opponentColor gs

/-- source: ChessEngine.wouldLeaveKingInCheck -/
def wouldLeaveKingInCheck (fromPos toPos : Position) (gs : GameState) : Bool :=
  isInCheck (makeTemporaryMove fromPos toPos gs)

/-- source: ChessEngine.isValidMove -/
def isValidMove (fromPos toPos : Position) (gs : GameState) : Bool :=
  match getPieceAt gs.board fromPos with
  | none => false
  | some piece =>
    if piece.color ≠ gs.currentPlayer then false
    else if !isValidPosition toPos then false
    else if (match getPieceAt gs.board toPos with
             | some target => target.color == piece.color
             | none => false) then false
    else if !isPieceMovementValid piece fromPos toPos gs then false
    else if wouldLeaveKingInCheck fromPos toPos gs then false
    else true

/-- source: ChessEngine.getValidMoves -/
def getValidMoves (fromPos : Position) (gs : GameState) : List Position :=
  match getPieceAt gs.board fromPos with
  | none => []
  | some piece =>
    if piece.color ≠ gs.currentPlayer then []
    else squaresRM.filter fun toPos => isValidMove fromPos toPos gs

/-- source: ChessEngine.hasValidMoves -/
def hasValidMoves (gs : GameState) : Bool :=
  squaresRM.any fun sq =>
    match bget gs.board sq.row sq.col with
    | some piece =>
      piece.color == gs.currentPlayer && decide (0 < (getValidMoves sq gs).length)
    | none => false

/-- source: ChessEngine.getGameStatus -/
def getGameStatus (gs : GameState) : GameStatus :=
  if !hasValidMoves gs then
    (if isInCheck gs then .checkmate else .stalemate)
  else
    (if isInCheck gs then .check else .playing)

/-- source: ChessEngine.isCastlingMove -/
def isCastlingMove (piece : ChessPiece) (fromPos toPos : Position) : Bool :=
  piece.type == some .king && (toPos.col - fromPos.col).natAbs == 2

/-- source: ChessEngine.isEnPassantMove -/
def isEnPassantMove (piece : ChessPiece) (fromPos toPos : Position)
    (gs : GameState) : Bool :=
  piece.type == some .pawn &&
  (toPos.col - fromPos.col).natAbs == 1 &&
  !(getPieceAt gs.board toPos).isSome &&
  (match gs.enPassantTarget with
   | some ep => positionsEqual toPos ep
   | none => false)

/-- source: ChessEngine.handleCastling -/
def handleCastling (fromPos toPos : Position) (board : Board) : Board :=
  let isKingSide : Bool := decide (fromPos.col < toPos.col)
  let rookFromCol : Int := if isKingSide then 7 else 0
  let rookToCol : Int := if isKingSide then 5 else 3
  let rook := bget board fromPos.row rookFromCol
  let b1 := bset board fromPos.row rookToCol
    (match rook with
     | some r => some { r with hasMoved := true }
     | none => none)
  bset b1 fromPos.row rookFromCol none

/-- source: ChessEngine.updateCastlingRights -/
def updateCastlingRights (currentRights : CastlingRights) (move : ChessMove) :
    CastlingRights :=
  let r1 :=
    if move.piece.type = some .king then
      (if move.piece.color = .white then
        { currentRights with whiteKingSide := false, whiteQueenSide := false }
      else
        { currentRights with blackKingSide := false, blackQueenSide := false })
    else currentRights
  if move.piece.type = some .rook then
    let r2 := if move.fromPos.row = 7 ∧ move.fromPos.col = 7 then
      { r1 with whiteKingSide := false } else r1
    let r3 := if move.fromPos.row = 7 ∧ move.fromPos.col = 0 then
      { r2 with whiteQueenSide := false } else r2
    let r4 := if move.fromPos.row = 0 ∧ move.fromPos.col = 7 then
      { r3 with blackKingSide := false } else r3
    if move.fromPos.row = 0 ∧ move.fromPos.col = 0 then
      { r4 with blackQueenSide := false } else r4
  else r1

/-- source: ChessEngine.getEnPassantTarget -/
def getEnPassantTarget (move : ChessMove) : Option Position :=
  if move.piece.type = some .pawn ∧ (move.toPos.row - move.fromPos.row).natAbs = 2 then
    some ⟨(move.fromPos.row + move.toPos.row) / 2, move.toPos.col⟩
  else none

/-! ## Position codec (src/src/lib/chess-utils.ts) -/

/-- The `files` array of chess-utils.ts. -/
def files : List Char := ['a', 'b', 'c', 'd', 'e', 'f', 'g', 'h']

/-- JS array read `l[i]` with a possibly out-of-range index. -/
def jsIndex (l : List Char) (i : Int) : Option Char :=
  if 0 ≤ i then (l.get? i.toNat) else none

/-- source: positionToChessNotation.  `files[pos.col]` is `undefined` off the
board; JS string concatenation then renders it as the text "undefined". -/
def positionToLabel (pos : Position) : List Char :=
  (match jsIndex files pos.col with
   | some c => [c]
   | none => "undefined".toList) ++ (toString (8 - pos.row)).toList

/-- `parseInt` applied to a single character: a digit parses, anything else
is NaN (`none`). -/
def digitVal? (c : Char) : Option Nat :=
  if '0' ≤ c ∧ c ≤ '9' then some (c.toNat - 48) else none

/-- JS `files.indexOf(file)`: `-1` when absent. -/
def jsIndexOfGo (c : Char) (i : Int) : List Char → Int
  | [] => -1
  | x :: rest => if x = c then i else jsIndexOfGo c (i + 1) rest

def jsIndexOf (l : List Char) (c : Char) : Int := jsIndexOfGo c 0 l

/-- source: chessNotationToPosition.  When the rank character is missing or is
not a digit, the source computes `8 - NaN = NaN` for the row; a NaN
coordinate never compares equal to any square and never passes
`isValidPosition`, so that unreachable-in-practice outcome is modelled as
`none`. -/
def labelToPosition (s : List Char) : Option Position :=
  match s.get? 1 with
  | none => none
  | some rankChar =>
    match digitVal? rankChar with
    | none => none
    | some d =>
      some ⟨8 - (d : Int),
            match s.get? 0 with
            | some fileChar => jsIndexOf files fileChar
            | none => -1⟩

/-- source: pieceToFENChar.  A piece with `undefined` type makes the JS
source produce `undefined` (crashing on `.toUpperCase()` for white);
modelled as `none`. -/
def pieceToFENChar (p : ChessPiece) : Option Char :=
  match p.type with
  | none => none
  | some t =>
    let c : Char :=
      match t with
      | .king => 'k'
      | .queen => 'q'
      | .rook => 'r'
      | .bishop => 'b'
      | .knight => 'n'
      | .pawn => 'p'
    some (if p.color = .white then c.toUpper else c)

/-- source: FENCharToPiece.  An unrecognized letter yields a piece whose
`type` is `undefined` (`none`): the JS `typeMap` lookup misses. -/
def FENCharToPiece (c : Char) (id : String) : ChessPiece :=
  let isWhite := c.toUpper = c
  let color : PieceColor := if isWhite then .white else .black
  let type : Option PieceType :=
    match c.toLower with
    | 'k' => some .king
    | 'q' => some .queen
    | 'r' => some .rook
    | 'b' => some .bishop
    | 'n' => some .knight
    | 'p' => some .pawn
    | _ => none
  { type := type, color := color, id := id, hasMoved := false }

/-- The inner column loop of `gameStateToFEN` reads `board[row][col]` for
`col` 0..7; a short row yields `undefined` cells, counted as empty. -/
def padRow (row : List (Option ChessPiece)) : List (Option ChessPiece) :=
  (List.range 8).map fun c => (row.get? c).getD none

/-- Run-length encoding of one rank, tracking the running `emptyCount` of the
source loop.  `none` when a cell holds a piece with `undefined` type (the JS
output would be garbage or a crash — see `pieceToFENChar`). -/
def encodeRowF : List (Option ChessPiece) → Nat → Option (List Char)
  | [], n => some (if 0 < n then (toString n).toList else [])
  | none :: rest, n => encodeRowF rest (n + 1)
  | some p :: rest, n =>
    match pieceToFENChar p with
    | none => none
    | some c =>
      match encodeRowF rest 0 with
      | none => none
      | some out => some ((if 0 < n then (toString n).toList else []) ++ c :: out)

/-- The `if (row < 7) fen += '/'` joining of the source's rank loop. -/
def joinSlash : List (List Char) → List Char
  | [] => []
  | [r] => r
  | r :: rest => r ++ '/' :: joinSlash rest

/-- The board field of `gameStateToFEN`: ranks joined by `'/'`.  `none` when
the board has fewer than 8 rows (the JS source would throw). -/
def encodeBoard (b : Board) : Option (List Char) :=
  match (List.range 8).mapM
      (fun r => (b.get? r).bind fun row => encodeRowF (padRow row) 0) with
  | none => none
  | some rowStrs => some (joinSlash rowStrs)

/-- The castling field of `gameStateToFEN`: `castling || '-'`. -/
def castlingStr (cr : CastlingRights) : List Char :=
  let s := (if cr.whiteKingSide then ['K'] else []) ++
    (if cr.whiteQueenSide then ['Q'] else []) ++
    (if cr.blackKingSide then ['k'] else []) ++
    (if cr.blackQueenSide then ['q'] else [])
  if s = [] then ['-'] else s

/-- source: gameStateToFEN -/
def gameStateToFEN (gs : GameState) : Option (List Char) :=
  match encodeBoard gs.board with
  | none => none
  | some boardStr =>
    some (boardStr ++
      ' ' :: (if gs.currentPlayer = .white then ['w'] else ['b']) ++
      ' ' :: castlingStr gs.castlingRights ++
      ' ' :: (match gs.enPassantTarget with
              | some p => positionToLabel p
              | none => ['-']) ++
      ' ' :: '0' ::
      ' ' :: (toString (gs.moveHistory.length / 2 + 1)).toList)

/-- JS `String.prototype.split` with a single-character separator. -/
def jsSplit : List Char → Char → List (List Char)
  | [], _ => [[]]
  | c :: rest, sep =>
    if c = sep then [] :: jsSplit rest sep
    else
      match jsSplit rest sep with
      | [] => [[c]]
      | h :: t => (c :: h) :: t

/-- The inner character loop of `FENToGameState`'s board parser, writing into
one (initially empty) rank.  `col` only ever grows from 0, so it is a `Nat`. -/
def decodeRowF : List Char → List (Option ChessPiece) → Nat → Nat →
    List (Option ChessPiece)
  | [], cells, _, _ => cells
  | ch :: rest, cells, row, col =>
    if '1' ≤ ch ∧ ch ≤ '8' then decodeRowF rest cells row (col + (ch.toNat - 48))
    else
      decodeRowF rest
        (cells.set col (some (FENCharToPiece ch s!"{ch}-{row}-{col}")))
        row (col + 1)

/-- source: FENToGameState.  `none` models the uncaught JS TypeError thrown
when the input is missing fields (`undefined[0]`, `for..of undefined`); the
source has no error signalling of its own.  Bindings are ordered as the JS
statements evaluate. -/
def FENToGameState (fen : List Char) : Option GameState :=
  let parts := jsSplit fen ' '
  let boardPart := parts.headD []
  let activeColor : PieceColor :=
    if parts.get? 1 = some ['w'] then .white else .black
  match (match parts.get? 3 with
         | none => none
         | some s =>
           some (if s ≠ ['-'] then labelToPosition s else none)) with
  | none => none
  | some enPassantTarget =>
    let rows := jsSplit boardPart '/'
    match (List.range 8).foldlM
        (fun (b : Board) row =>
          match rows.get? row with
          | none => none
          | some rowChars =>
            some (b.set row (decodeRowF rowChars (List.replicate 8 none) row 0)))
        (List.replicate 8 (List.replicate 8 none)) with
    | none => none
    | some board =>
      match parts.get? 2 with
      | none => none
      | some castlingField =>
        some { board := board
               currentPlayer := activeColor
               moveHistory := []
               capturedPieces := []
               gameStatus := .playing
               winner := none
               lastMove := none
               enPassantTarget := enPassantTarget
               castlingRights :=
                 { whiteKingSide := castlingField.contains 'K'
                   whiteQueenSide := castlingField.contains 'Q'
                   blackKingSide := castlingField.contains 'k'
                   blackQueenSide := castlingField.contains 'q' } }

/-- `type.charAt(0).toUpperCase()` of the source's notation generator; note
knight yields 'K' because the JS type string is 'knight'. -/
def typeFirstUpper : PieceType → Char
  | .king => 'K'
  | .queen => 'Q'
  | .rook => 'R'
  | .bishop => 'B'
  | .knight => 'K'
  | .pawn => 'P'

/-- source: generateMoveNotation (chess-utils.ts; renamed, the source name
ends in a Lean keyword).  The `gameState` parameter is unused in the source
too.  `none` models the JS crash on a piece with `undefined` type. -/
def generateMoveText (move : ChessMove) (_gs : GameState) : Option String :=
  if move.isCastling = some true then
    some (if move.toPos.col > move.fromPos.col then "O-O" else "O-O-O")
  else
    match (match move.piece.type with
           | some .pawn => some ""
           | some t => some (String.singleton (typeFirstUpper t))
           | none => none) with
    | none => none
    | some headStr =>
      some (headStr ++ String.mk (positionToLabel move.fromPos) ++
        (if move.capturedPiece.isSome then "x" else "") ++
        String.mk (positionToLabel move.toPos) ++
        (match move.promotion with
         | some pt => "=" ++ String.singleton (typeFirstUpper pt)
         | none => "") ++
        (if move.isCheckmate = some true then "#"
         else if move.isCheck = some true then "+" else ""))

/-- source: ChessEngine.makeMove.  `none` for a rejected move; the inner
`match` on the moved piece models the source's non-null assertion
(unreachable after `isValidMove`). -/
def makeMove (fromPos toPos : Position) (gs : GameState) : Option GameState :=
  if !isValidMove fromPos toPos gs then none
  else
    match bget gs.board fromPos.row fromPos.col with
    | none => none
    | some piece =>
      let capturedPiece := bget gs.board toPos.row toPos.col
      let move0 : ChessMove :=
        { fromPos := fromPos
          toPos := toPos
          piece := piece
          capturedPiece := capturedPiece
          isCheck := none
          isCheckmate := none
          isStalemate := none
          isCastling := some (isCastlingMove piece fromPos toPos)
          isEnPassant := some (isEnPassantMove piece fromPos toPos gs)
          promotion := none
          moveText := "" }
      let b1 := bset gs.board toPos.row toPos.col (some { piece with hasMoved := true })
      let b2 := bset b1 fromPos.row fromPos.col none
      let b3 := if move0.isCastling = some true then handleCastling fromPos toPos b2
                else b2
      let b4 :=
        if move0.isEnPassant = some true then
          let capturedPawnRow :=
            if piece.color = .white then toPos.row + 1 else toPos.row - 1
          bset b3 capturedPawnRow toPos.col none
        else b3
      let newCastlingRights := updateCastlingRights gs.castlingRights move0
      let newEnPassantTarget := getEnPassantTarget move0
      let newCurrentPlayer := flipColor gs.currentPlayer
      let s0 : GameState :=
        { board := b4
          currentPlayer := newCurrentPlayer
          moveHistory := gs.moveHistory
          capturedPieces :=
            match capturedPiece with
            | some cp => gs.capturedPieces ++ [cp]
            | none => gs.capturedPieces
          gameStatus := .playing
          winner := none
          lastMove := some move0
          enPassantTarget := newEnPassantTarget
          castlingRights := newCastlingRights }
      match generateMoveText move0 s0 with
      | none => none
      | some note =>
        let move := { move0 with moveText := note }
        let s1 := { s0 with
          moveHistory := gs.moveHistory ++ [move]
          lastMove := some move }
        some { s1 with gameStatus := getGameStatus s1 }

/-- source: INITIAL_BOARD_FEN (src/unnamed/part_000) -/
def INITIAL_BOARD_FEN : List Char :=
  "rnbqkbnr/pppppppp/8/8/8/8/PPPPPPPP/RNBQKBNR w KQkq - 0 1".toList

/-- source: createInitialGameState (chess-utils.ts) -/
def createInitialGameState : Option GameState := FENToGameState INITIAL_BOARD_FEN

/-! ## Concrete positions used to exercise the claims -/

def emptyBoard : Board := List.replicate 8 (List.replicate 8 none)

/-- Build a board by placing pieces on an empty board. -/
def boardOf (l : List (Position × ChessPiece)) : Board :=
  l.foldl (fun b pc => bset b pc.1.row pc.1.col (some pc.2)) emptyBoard

/-- Piece with a definite (non-`undefined`) type. -/
def mkP (t : PieceType) (c : PieceColor) (id : String) (m : Bool) : ChessPiece :=
  ⟨some t, c, id, m⟩

def noRights : CastlingRights := ⟨false, false, false, false⟩

/-- An en-passant pin: white king e5, white pawn f5, black pawn g5 (which has
just double-stepped, en-passant target g6), black rook h5.  The black pawn is
the only piece shielding the white king from the rook along rank 5. -/
def gsEP : GameState :=
  { board := boardOf [(⟨3,4⟩, mkP .king .white "wk" true),
      (⟨3,5⟩, mkP .pawn .white "wp" true),
      (⟨3,6⟩, mkP .pawn .black "bp" true),
      (⟨3,7⟩, mkP .rook .black "br" true),
      (⟨0,0⟩, mkP .king .black "bk" true)]
    currentPlayer := .white, moveHistory := [], capturedPieces := [],
    gameStatus := .playing, winner := none, lastMove := none,
    enPassantTarget := some ⟨2,6⟩, castlingRights := noRights }

/-- Mate-in-one position: black king a8, white king c6, white queen b1;
Qb1-b7 is checkmate. -/
def gsMate : GameState :=
  { board := boardOf [(⟨0,0⟩, mkP .king .black "bk" true),
      (⟨2,2⟩, mkP .king .white "wk" true),
      (⟨7,1⟩, mkP .queen .white "wq" true)]
    currentPlayer := .white, moveHistory := [], capturedPieces := [],
    gameStatus := .playing, winner := none, lastMove := none,
    enPassantTarget := none, castlingRights := noRights }

/-- An unmoved white king on d1 with an unmoved rook on h1 and the kingside
castling right: the geometry of a castling attempt, but three columns wide. -/
def gsK3 : GameState :=
  { board := boardOf [(⟨7,3⟩, mkP .king .white "wk" false),
      (⟨7,7⟩, mkP .rook .white "wr" false),
      (⟨0,0⟩, mkP .king .black "bk" true)]
    currentPlayer := .white, moveHistory := [], capturedPieces := [],
    gameStatus := .playing, winner := none, lastMove := none,
    enPassantTarget := none, castlingRights := ⟨true, false, false, false⟩ }

/-- A legal white kingside castling position. -/
def gsCastle : GameState :=
  { board := boardOf [(⟨7,4⟩, mkP .king .white "wk" false),
      (⟨7,7⟩, mkP .rook .white "wr" false),
      (⟨0,4⟩, mkP .king .black "bk" true)]
    currentPlayer := .white, moveHistory := [], capturedPieces := [],
    gameStatus := .playing, winner := none, lastMove := none,
    enPassantTarget := none, castlingRights := ⟨true, false, false, false⟩ }

/-- A white pawn on its starting rank whose double-step destination is empty
but whose intervening square is occupied by a black knight. -/
def gsPawn2 : GameState :=
  { board := boardOf [(⟨6,3⟩, mkP .pawn .white "wp" false),
      (⟨5,3⟩, mkP .knight .black "bn" true),
      (⟨7,0⟩, mkP .king .white "wk" true),
      (⟨0,0⟩, mkP .king .black "bk" true)]
    currentPlayer := .white, moveHistory := [], capturedPieces := [],
    gameStatus := .playing, winner := none, lastMove := none,
    enPassantTarget := none, castlingRights := noRights }

/-- An ordinary en-passant capture position (no pin): white pawn f5, black
pawn g5 just double-stepped (target g6). -/
def gsEP2 : GameState :=
  { board := boardOf [(⟨7,4⟩, mkP .king .white "wk" true),
      (⟨3,5⟩, mkP .pawn .white "wp" true),
      (⟨3,6⟩, mkP .pawn .black "bp" true),
      (⟨0,0⟩, mkP .king .black "bk" true)]
    currentPlayer := .white, moveHistory := [], capturedPieces := [],
    gameStatus := .playing, winner := none, lastMove := none,
    enPassantTarget := some ⟨2,6⟩, castlingRights := noRights }

/-- `direction` computed by the source's pawn logic. -/
def pawnDirection (c : PieceColor) : Int := if c = .white then -1 else 1

/-- The state `makeMove` constructs just before recomputing the final status
(the source's `newGameState` after `moveHistory.push(move)`), for an accepted
move whose mover is `piece` and whose generated move text is `note`.
`makeMove` returns this state with `gameStatus` replaced by
`getGameStatus` of it (see `makeMove_eq_result`). -/
def makeMoveCore (fromPos toPos : Position) (gs : GameState) (piece : ChessPiece)
    (note : String) : GameState :=
  let capturedPiece := bget gs.board toPos.row toPos.col
  let move0 : ChessMove :=
    { fromPos := fromPos
      toPos := toPos
      piece := piece
      capturedPiece := capturedPiece
      isCheck := none
      isCheckmate := none
      isStalemate := none
      isCastling := some (isCastlingMove piece fromPos toPos)
      isEnPassant := some (isEnPassantMove piece fromPos toPos gs)
      promotion := none
      moveText := "" }
  let b1 := bset gs.board toPos.row toPos.col (some { piece with hasMoved := true })
  let b2 := bset b1 fromPos.row fromPos.col none
  let b3 := if move0.isCastling = some true then handleCastling fromPos toPos b2 else b2
  let b4 :=
    if move0.isEnPassant = some true then
      let capturedPawnRow :=
        if piece.color = .white then toPos.row + 1 else toPos.row - 1
      bset b3 capturedPawnRow toPos.col none
    else b3
  let move := { move0 with moveText := note }
  { board := b4
    currentPlayer := flipColor gs.currentPlayer
    moveHistory := gs.moveHistory ++ [move]
    capturedPieces :=
      match capturedPiece with
      | some cp => gs.capturedPieces ++ [cp]
      | none => gs.capturedPieces
    gameStatus := .playing
    winner := none
    lastMove := some move
    enPassantTarget := getEnPassantTarget move0
    castlingRights := updateCastlingRights gs.castlingRights move0 }

/-- Result of the pawn double step in `gsPawn2` (witness state for C2). -/
def c2ExState : GameState := (makeMove ⟨6,3⟩ ⟨4,3⟩ gsPawn2).getD gsPawn2

/-- Result of the mating queen move in `gsMate` (witness state for C3). -/
def c3ExState : GameState := (makeMove ⟨7,1⟩ ⟨1,1⟩ gsMate).getD gsMate

/-- Result of the en-passant capture in `gsEP2` (witness state for C8). -/
def c8ExState : GameState := (makeMove ⟨3,5⟩ ⟨2,6⟩ gsEP2).getD gsEP2

/-- Result of the kingside castle in `gsCastle` (witness state for C10). -/
def c10ExState : GameState := (makeMove ⟨7,4⟩ ⟨7,6⟩ gsCastle).getD gsCastle

/-- The data-model invariant that a board is an 8×8 grid. -/
def boardShape (b : Board) : Prop :=
  b.length = 8 ∧ ∀ row ∈ b, row.length = 8

/-- Every piece of `b` stems from a piece of `base` with the same type, color
and identity token (moved-flags excluded). -/
def Covers (base b : Board) : Prop :=
  ∀ q p', getPieceAt b q = some p' →
    ∃ q0 p0, getPieceAt base q0 = some p0 ∧ p0.type = p'.type ∧
      p0.color = p'.color ∧ p0.id = p'.id

/-- The piece stored by the FEN parser at (row, col) when it re-reads the
character the serializer produced for `p` (proof-support definition for the
round-trip argument). -/
def reparsedPiece (p : ChessPiece) (row col : Nat) : ChessPiece :=
  match pieceToFENChar p with
  | some ch => FENCharToPiece ch s!"{ch}-{row}-{col}"
  | none => p

/-- The effect of decoding an encoded rank: walk the cells, skipping empties
and writing the re-parsed piece at each occupied index (proof-support
definition; `decodeRowF_encode` relates it to the parser). -/
def writeCells (row : Nat) :
    List (Option ChessPiece) → Nat → List (Option ChessPiece) →
    List (Option ChessPiece)
  | acc, _, [] => acc
  | acc, i, none :: s => writeCells row acc (i + 1) s
  | acc, i, some p :: s =>
    writeCells row (acc.set i (some (reparsedPiece p row i))) (i + 1) s

/-- A game state on which the claims' round-trip property is stated: 8×8
board, no piece with `undefined` type, en-passant target (if any) on the
board. -/
def wellFormedState (gs : GameState) : Prop :=
  boardShape gs.board ∧
  (∀ row ∈ gs.board, ∀ cell ∈ row, cell.all (fun p => p.type.isSome) = true) ∧
  (match gs.enPassantTarget with
   | some ep => isValidPosition ep
   | none => true) = true

/-- A mixed position exercising the round trip (witness state for C4). -/
def gsC4 : GameState :=
  { board := boardOf [(⟨7,4⟩, mkP .king .white "wk" false),
      (⟨0,4⟩, mkP .king .black "bk" false),
      (⟨7,0⟩, mkP .rook .white "wr" false),
      (⟨4,2⟩, mkP .pawn .black "bp" true)]
    currentPlayer := .black, moveHistory := [], capturedPieces := [],
    gameStatus := .playing, winner := none, lastMove := none,
    enPassantTarget := some ⟨2,6⟩, castlingRights := ⟨true, false, true, false⟩ }

/-! ## Claim theorems -/

/-- C1: refuted by the code.  At the en-passant pin position `gsEP`,
`makeMove` accepts the capture f5xg6 e.p., and in the resulting state the
white king (the side that just moved, still on e5) is attacked by the black
rook on h5: the check-safety simulation relocates only the capturing pawn and
never removes the captured pawn, so the pawn it should have removed still
shields the king during the simulation. -/
theorem c1_enPassant_leaves_mover_in_check :
    (makeMove ⟨3,5⟩ ⟨2,6⟩ gsEP).map
        (fun s => (getPieceAt s.board ⟨3,4⟩, isSquareUnderAttack ⟨3,4⟩ .black s)) =
      some (some (mkP .king .white "wk" true), true) := by rfl

/-- C3 counterexample: `makeMove` produces a checkmate state whose `winner`
field is `none` — the source constructs the new state without ever assigning
`winner`, so the claim that checkmate sets it to the side that just moved is
false. -/
theorem c3_checkmate_winner_unset :
    (makeMove ⟨7,1⟩ ⟨1,1⟩ gsMate).map (fun s => (s.gameStatus, s.winner)) =
      some (.checkmate, none) := by rfl

/-- C7 counterexample: a same-row king move of three columns (d1 to g1) is
accepted by `isValidMove` when the kingside castling conditions hold, because
`isCastlingValid` never checks that the column delta is exactly 2. -/
theorem c7_three_column_king_move_accepted :
    isValidMove ⟨7,3⟩ ⟨7,6⟩ gsK3 = true ∧
    getPieceAt gsK3.board ⟨7,3⟩ = some (mkP .king .white "wk" false) ∧
    ((7:Int) - 7 = 0 ∧ ((6:Int) - 3).natAbs = 3) :=
  ⟨by rfl, by rfl, by omega, by rfl⟩

/-- C9 counterexample: `FENToGameState` does not signal decode failures.  On
the input "x" (missing required fields) it throws a TypeError (modelled as
`none`, a crash rather than an in-band failure value), and on a board field
with the unrecognized letter 'x' it returns an ordinary `GameState` whose
square h1 holds a piece with `undefined` type instead of any failure. -/
theorem c9_no_decode_failure_signal :
    FENToGameState "x".toList = none ∧
    (FENToGameState "8/8/8/8/8/8/8/7x w - - 0 1".toList).map
        (fun gs => getPieceAt gs.board ⟨7,7⟩) =
      some (some ⟨none, .black, "x-7-7", false⟩) :=
  ⟨by rfl, by rfl⟩

/-- C6: a straight two-square pawn advance is judged legal by
`isPawnMoveValid` exactly when the destination is empty and the pawn stands
on its color's starting rank (row 6 for white, row 1 for black); the
intervening square plays no role. -/
theorem c6_pawn_double_step (piece : ChessPiece) (fromPos toPos : Position)
    (gs : GameState) (ht : piece.type = some .pawn)
    (hc : toPos.col = fromPos.col)
    (hr : toPos.row - fromPos.row = 2 * pawnDirection piece.color) :
    isPawnMoveValid piece fromPos toPos gs =
      ((getPieceAt gs.board toPos).isNone &&
        decide ((piece.color = .white ∧ fromPos.row = 6) ∨
                (piece.color = .black ∧ fromPos.row = 1))) := by
  have hcd : toPos.col - fromPos.col = 0 := by omega
  cases hco : piece.color with
  | white =>
    rw [hco] at hr
    simp [pawnDirection] at hr
    cases htp : getPieceAt gs.board toPos with
    | some t =>
      simp [isPawnMoveValid, hco, hcd, hr, htp]
    | none =>
      by_cases hsr : fromPos.row = 6
      · simp [isPawnMoveValid, hco, hcd, hr, htp, hsr] <;> omega
      · simp [isPawnMoveValid, hco, hcd, hr, htp, hsr] <;> omega
  | black =>
    rw [hco] at hr
    simp [pawnDirection] at hr
    cases htp : getPieceAt gs.board toPos with
    | some t =>
      simp [isPawnMoveValid, hco, hcd, hr, htp]
    | none =>
      by_cases hsr : fromPos.row = 1
      · simp [isPawnMoveValid, hco, hcd, hr, htp, hsr] <;> omega
      · simp [isPawnMoveValid, hco, hcd, hr, htp, hsr] <;> omega

/-- C6 witness: in `gsPawn2` the intervening square d3 is occupied by a black
knight, yet the double step d2-d4 is judged legal because the destination is
empty and the pawn is on row 6. -/
theorem c6_pawn_double_step_witness :
    getPieceAt gsPawn2.board ⟨5,3⟩ = some (mkP .knight .black "bn" true) ∧
    isPawnMoveValid (mkP .pawn .white "wp" false) ⟨6,3⟩ ⟨4,3⟩ gsPawn2 = true :=
  ⟨by rfl,
   (c6_pawn_double_step (mkP .pawn .white "wp" false) ⟨6,3⟩ ⟨4,3⟩ gsPawn2
      rfl rfl (by decide)).trans (by rfl)⟩

/-! ### Structure of an accepted `makeMove` -/

/-- Every accepted `makeMove` returns `makeMoveCore` with its `gameStatus`
field replaced by `getGameStatus` of that very state. -/
theorem makeMove_eq_result (fromPos toPos : Position) (gs gs' : GameState)
    (h : makeMove fromPos toPos gs = some gs') :
    ∃ piece note,
      isValidMove fromPos toPos gs = true ∧
      bget gs.board fromPos.row fromPos.col = some piece ∧
      gs' = { makeMoveCore fromPos toPos gs piece note with
              gameStatus := getGameStatus (makeMoveCore fromPos toPos gs piece note) } := by
  simp only [makeMove] at h
  split at h
  · exact Option.noConfusion h
  · rename_i hval
    split at h
    · exact Option.noConfusion h
    · rename_i piece hpiece
      split at h
      · exact Option.noConfusion h
      · rename_i note hnote
        rw [Option.some.injEq] at h
        refine ⟨piece, note, ?_, hpiece, h.symm⟩
        revert hval
        cases isValidMove fromPos toPos gs <;> simp

/-- Unpacking `isValidMove … = true` into the five source-side checks. -/
theorem isValidMove_true (a b : Position) (gs : GameState)
    (h : isValidMove a b gs = true) :
    ∃ piece, getPieceAt gs.board a = some piece ∧
      piece.color = gs.currentPlayer ∧
      isValidPosition b = true ∧
      (match getPieceAt gs.board b with
       | some target => target.color == piece.color
       | none => false) = false ∧
      isPieceMovementValid piece a b gs = true ∧
      wouldLeaveKingInCheck a b gs = false := by
  unfold isValidMove at h
  split at h
  · exact Bool.noConfusion h
  · rename_i piece hp
    refine ⟨piece, hp, ?_⟩
    by_cases h1 : piece.color ≠ gs.currentPlayer
    · rw [if_pos h1] at h; exact Bool.noConfusion h
    rw [if_neg h1] at h
    push_neg at h1
    cases h2 : isValidPosition b with
    | false => rw [h2] at h; simp at h
    | true =>
      rw [h2] at h
      rw [if_neg (by simp)] at h
      cases hb2 : getPieceAt gs.board b with
      | none =>
        rw [hb2] at h
        rw [if_neg (by simp)] at h
        cases h4 : isPieceMovementValid piece a b gs with
        | false => rw [h4] at h; simp at h
        | true =>
          rw [h4] at h
          rw [if_neg (by simp)] at h
          cases h5 : wouldLeaveKingInCheck a b gs with
          | true => rw [h5] at h; simp at h
          | false => exact ⟨h1, rfl, rfl, rfl, rfl⟩
      | some target =>
        rw [hb2] at h
        cases h3 : target.color == piece.color with
        | true =>
          rw [if_pos (by simp [h3])] at h
          exact Bool.noConfusion h
        | false =>
          rw [if_neg (by simp [h3])] at h
          cases h4 : isPieceMovementValid piece a b gs with
          | false => rw [h4] at h; simp at h
          | true =>
            rw [h4] at h
            rw [if_neg (by simp)] at h
            cases h5 : wouldLeaveKingInCheck a b gs with
            | true => rw [h5] at h; simp at h
            | false => exact ⟨h1, rfl, h3, rfl, rfl⟩

/-! ### The rules functions only read board, currentPlayer, enPassantTarget
and castlingRights; the remaining `GameState` fields are irrelevant.  These
congruence lemmas let the status recomputed by `makeMove` be related to the
final state it returns. -/

theorem isPawnMoveValid_congr (p : ChessPiece) (a b : Position)
    (gs gs2 : GameState) (hb : gs2.board = gs.board)
    (hep : gs2.enPassantTarget = gs.enPassantTarget) :
    isPawnMoveValid p a b gs2 = isPawnMoveValid p a b gs := by
  unfold isPawnMoveValid
  simp only [hb, hep]

theorem isCastlingValidAux_congr
    (att att2 : Position → PieceColor → GameState → Bool)
    (p : ChessPiece) (a b : Position) (gs gs2 : GameState)
    (hb : gs2.board = gs.board) (hcr : gs2.castlingRights = gs.castlingRights)
    (hatt : ∀ pos byC, att2 pos byC gs2 = att pos byC gs) :
    isCastlingValidAux att2 p a b gs2 = isCastlingValidAux att p a b gs := by
  unfold isCastlingValidAux
  simp only [hb, hcr, hatt]

theorem isPieceMovementValidAux_congr
    (att att2 : Position → PieceColor → GameState → Bool)
    (p : ChessPiece) (a b : Position) (gs gs2 : GameState)
    (hb : gs2.board = gs.board) (hep : gs2.enPassantTarget = gs.enPassantTarget)
    (hcr : gs2.castlingRights = gs.castlingRights)
    (hatt : ∀ pos byC, att2 pos byC gs2 = att pos byC gs) :
    isPieceMovementValidAux att2 p a b gs2 = isPieceMovementValidAux att p a b gs := by
  unfold isPieceMovementValidAux
  cases hpt : p.type with
  | none => rfl
  | some t =>
    cases t with
    | pawn => exact isPawnMoveValid_congr p a b gs gs2 hb hep
    | rook => simp only [hb]
    | bishop => simp only [hb]
    | queen => simp only [hb]
    | knight => rfl
    | king =>
      dsimp only
      split
      · rfl
      · exact isCastlingValidAux_congr att att2 p a b gs gs2 hb hcr hatt

theorem isSquareUnderAttackF_congr (f : Nat) :
    ∀ (pos : Position) (byC : PieceColor) (gs gs2 : GameState),
      gs2.board = gs.board → gs2.enPassantTarget = gs.enPassantTarget →
      gs2.castlingRights = gs.castlingRights →
      isSquareUnderAttackF f pos byC gs2 = isSquareUnderAttackF f pos byC gs := by
  induction f with
  | zero => intro pos byC gs gs2 _ _ _; rfl
  | succ n ih =>
    intro pos byC gs gs2 hb hep hcr
    simp only [isSquareUnderAttackF]
    refine congrArg _ (funext fun sq => ?_)
    rw [hb]
    cases hcell : bget gs.board sq.row sq.col with
    | none => rfl
    | some piece =>
      dsimp only
      by_cases hc : piece.color = byC
      · rw [if_pos hc, if_pos hc]
        by_cases hpw : piece.type = some PieceType.pawn
        · rw [if_pos hpw, if_pos hpw]
        · rw [if_neg hpw, if_neg hpw]
          exact isPieceMovementValidAux_congr _ _ piece sq pos gs gs2 hb hep hcr
            (fun pos2 byC2 => ih pos2 byC2 gs gs2 hb hep hcr)
      · rw [if_neg hc, if_neg hc]

theorem isSquareUnderAttack_congr (pos : Position) (byC : PieceColor)
    (gs gs2 : GameState) (hb : gs2.board = gs.board)
    (hep : gs2.enPassantTarget = gs.enPassantTarget)
    (hcr : gs2.castlingRights = gs.castlingRights) :
    isSquareUnderAttack pos byC gs2 = isSquareUnderAttack pos byC gs :=
  isSquareUnderAttackF_congr engineFuel pos byC gs gs2 hb hep hcr

theorem isPieceMovementValid_congr (p : ChessPiece) (a b : Position)
    (gs gs2 : GameState) (hb : gs2.board = gs.board)
    (hep : gs2.enPassantTarget = gs.enPassantTarget)
    (hcr : gs2.castlingRights = gs.castlingRights) :
    isPieceMovementValid p a b gs2 = isPieceMovementValid p a b gs :=
  isPieceMovementValidAux_congr _ _ p a b gs gs2 hb hep hcr
    (fun pos byC => isSquareUnderAttack_congr pos byC gs gs2 hb hep hcr)

theorem isInCheck_congr (gs gs2 : GameState) (hb : gs2.board = gs.board)
    (hcp : gs2.currentPlayer = gs.currentPlayer)
    (hep : gs2.enPassantTarget = gs.enPassantTarget)
    (hcr : gs2.castlingRights = gs.castlingRights) :
    isInCheck gs2 = isInCheck gs := by
  simp only [isInCheck, hb, hcp]
  cases findKingSq gs.board gs.currentPlayer with
  | none => rfl
  | some kp => exact isSquareUnderAttack_congr kp _ gs gs2 hb hep hcr

theorem wouldLeaveKingInCheck_congr (a b : Position) (gs gs2 : GameState)
    (hb : gs2.board = gs.board) (hcp : gs2.currentPlayer = gs.currentPlayer)
    (hep : gs2.enPassantTarget = gs.enPassantTarget)
    (hcr : gs2.castlingRights = gs.castlingRights) :
    wouldLeaveKingInCheck a b gs2 = wouldLeaveKingInCheck a b gs := by
  unfold wouldLeaveKingInCheck
  exact isInCheck_congr _ _
    (by unfold makeTemporaryMove; simp only [hb])
    (by simpa [makeTemporaryMove] using hcp)
    (by simpa [makeTemporaryMove] using hep)
    (by simpa [makeTemporaryMove] using hcr)

theorem isValidMove_congr (a b : Position) (gs gs2 : GameState)
    (hb : gs2.board = gs.board) (hcp : gs2.currentPlayer = gs.currentPlayer)
    (hep : gs2.enPassantTarget = gs.enPassantTarget)
    (hcr : gs2.castlingRights = gs.castlingRights) :
    isValidMove a b gs2 = isValidMove a b gs := by
  unfold isValidMove
  rw [hb, hcp]
  cases getPieceAt gs.board a with
  | none => rfl
  | some piece =>
    dsimp only
    rw [isPieceMovementValid_congr piece a b gs gs2 hb hep hcr,
        wouldLeaveKingInCheck_congr a b gs gs2 hb hcp hep hcr]

theorem getValidMoves_congr (a : Position) (gs gs2 : GameState)
    (hb : gs2.board = gs.board) (hcp : gs2.currentPlayer = gs.currentPlayer)
    (hep : gs2.enPassantTarget = gs.enPassantTarget)
    (hcr : gs2.castlingRights = gs.castlingRights) :
    getValidMoves a gs2 = getValidMoves a gs := by
  unfold getValidMoves
  rw [hb, hcp]
  cases getPieceAt gs.board a with
  | none => rfl
  | some piece =>
    dsimp only
    split
    · rfl
    · exact congrArg (fun f => List.filter f squaresRM)
        (funext fun toPos => isValidMove_congr a toPos gs gs2 hb hcp hep hcr)

theorem hasValidMoves_congr (gs gs2 : GameState) (hb : gs2.board = gs.board)
    (hcp : gs2.currentPlayer = gs.currentPlayer)
    (hep : gs2.enPassantTarget = gs.enPassantTarget)
    (hcr : gs2.castlingRights = gs.castlingRights) :
    hasValidMoves gs2 = hasValidMoves gs := by
  unfold hasValidMoves
  refine congrArg _ (funext fun sq => ?_)
  rw [hb]
  cases bget gs.board sq.row sq.col with
  | none => rfl
  | some piece =>
    dsimp only
    rw [hcp, getValidMoves_congr sq gs gs2 hb hcp hep hcr]

theorem getGameStatus_congr (gs gs2 : GameState) (hb : gs2.board = gs.board)
    (hcp : gs2.currentPlayer = gs.currentPlayer)
    (hep : gs2.enPassantTarget = gs.enPassantTarget)
    (hcr : gs2.castlingRights = gs.castlingRights) :
    getGameStatus gs2 = getGameStatus gs := by
  unfold getGameStatus
  rw [hasValidMoves_congr gs gs2 hb hcp hep hcr, isInCheck_congr gs gs2 hb hcp hep hcr]

/-- C2: after every accepted `makeMove`, the status stored in the resulting
state is derived against that very state (whose `currentPlayer` is the new
side to move): `checkmate` when no legal move exists and the king is
attacked, `stalemate` when no legal move exists and it is not, `check` when
a legal move exists and the king is attacked, and `playing` otherwise. -/
theorem c2_status_derivation (fromPos toPos : Position) (gs gs' : GameState)
    (h : makeMove fromPos toPos gs = some gs') :
    gs'.gameStatus =
      (if hasValidMoves gs' then
        (if isInCheck gs' then GameStatus.check else GameStatus.playing)
      else
        (if isInCheck gs' then GameStatus.checkmate else GameStatus.stalemate)) := by
  obtain ⟨piece, note, -, -, rfl⟩ := makeMove_eq_result fromPos toPos gs gs' h
  have h1 : hasValidMoves
      { makeMoveCore fromPos toPos gs piece note with
        gameStatus := getGameStatus (makeMoveCore fromPos toPos gs piece note) } =
      hasValidMoves (makeMoveCore fromPos toPos gs piece note) :=
    hasValidMoves_congr _ _ rfl rfl rfl rfl
  have h2 : isInCheck
      { makeMoveCore fromPos toPos gs piece note with
        gameStatus := getGameStatus (makeMoveCore fromPos toPos gs piece note) } =
      isInCheck (makeMoveCore fromPos toPos gs piece note) :=
    isInCheck_congr _ _ rfl rfl rfl rfl
  show getGameStatus (makeMoveCore fromPos toPos gs piece note) = _
  rw [h1, h2]
  unfold getGameStatus
  cases hasValidMoves (makeMoveCore fromPos toPos gs piece note) <;>
    cases isInCheck (makeMoveCore fromPos toPos gs piece note) <;> rfl

/-- C2 witness: the pawn double step in `gsPawn2`. -/
theorem c2_status_derivation_witness :
    makeMove ⟨6,3⟩ ⟨4,3⟩ gsPawn2 = some c2ExState ∧
    c2ExState.gameStatus =
      (if hasValidMoves c2ExState then
        (if isInCheck c2ExState then GameStatus.check else GameStatus.playing)
      else
        (if isInCheck c2ExState then GameStatus.checkmate else GameStatus.stalemate)) :=
  ⟨by rfl, c2_status_derivation ⟨6,3⟩ ⟨4,3⟩ gsPawn2 c2ExState (by rfl)⟩

/-- A king movement check that is not a single step hands the move to
`isCastlingValid`. -/
theorem king_movement_to_castling (piece : ChessPiece) (a b : Position)
    (gs : GameState) (hk : piece.type = some PieceType.king)
    (hbig : ¬((b.row - a.row).natAbs ≤ 1 ∧ (b.col - a.col).natAbs ≤ 1))
    (h : isPieceMovementValid piece a b gs = true) :
    isCastlingValid piece a b gs = true := by
  unfold isPieceMovementValid isPieceMovementValidAux at h
  rw [hk] at h
  dsimp only at h
  rwa [if_neg hbig] at h

/-- Everything `isCastlingValid … = true` guarantees, read off the source's
sequence of early returns. -/
theorem isCastlingValid_true_elim (piece : ChessPiece) (a b : Position)
    (gs : GameState) (h : isCastlingValid piece a b gs = true) :
    piece.hasMoved = false ∧ a.row = b.row ∧
    (∃ rook, getPieceAt gs.board ⟨a.row, if a.col < b.col then (7:Int) else 0⟩ = some rook ∧
      rook.type = some PieceType.rook ∧ rook.color = piece.color ∧ rook.hasMoved = false) ∧
    (if piece.color = .white then
      (if a.col < b.col then gs.castlingRights.whiteKingSide = true
       else gs.castlingRights.whiteQueenSide = true)
     else
      (if a.col < b.col then gs.castlingRights.blackKingSide = true
       else gs.castlingRights.blackQueenSide = true)) ∧
    (∀ col : Int, min a.col (if a.col < b.col then (7:Int) else 0) < col →
        col < max a.col (if a.col < b.col then (7:Int) else 0) →
        bget gs.board a.row col = none) ∧
    (∀ col ∈ (if a.col < b.col then [a.col, a.col + 1, a.col + 2]
              else [a.col, a.col - 1, a.col - 2]),
        isSquareUnderAttack ⟨a.row, col⟩ (flipColor piece.color) gs = false) := by
  simp [isCastlingValid, isCastlingValidAux] at h
  obtain ⟨e1, e2, h3⟩ := h
  cases hrk : getPieceAt gs.board ⟨a.row, if a.col < b.col then 7 else 0⟩ with
  | none => rw [hrk] at h3; simp at h3
  | some rook =>
    rw [hrk] at h3
    simp at h3
    obtain ⟨⟨r1, r2, r3⟩, hrts, hbet, hkp⟩ := h3
    refine ⟨e1, e2, ⟨rook, rfl, r1, r2, r3⟩, hrts, ?_, hkp⟩
    intro col hlo hhi
    have hx := hbet (col - (a.col ⊓ (if a.col < b.col then 7 else 0)) - 1).toNat (by omega)
    have hcoe : (a.col ⊓ (if a.col < b.col then 7 else 0)) + 1 +
        ((col - (a.col ⊓ (if a.col < b.col then 7 else 0)) - 1).toNat : Int) = col := by
      omega
    rwa [hcoe] at hx

/-- C5: when `isValidMove` accepts a same-row king move of exactly two
columns, all castling conditions hold: unmoved king, matching unmoved rook of
the same side in the corner (column 7 kingside, column 0 queenside), the
corresponding castling-rights boolean, emptiness of every square strictly
between the king's and the rook's columns, and no opponent attack on the
king's origin, midpoint and destination squares (all computed on the pre-move
board). -/
theorem c5_castling_conditions (gs : GameState) (piece : ChessPiece)
    (a b : Position) (hp : getPieceAt gs.board a = some piece)
    (hk : piece.type = some PieceType.king)
    (hrow : b.row = a.row) (hcol : (b.col - a.col).natAbs = 2)
    (hacc : isValidMove a b gs = true) :
    piece.hasMoved = false ∧
    (∃ rook, getPieceAt gs.board ⟨a.row, if a.col < b.col then (7:Int) else 0⟩ = some rook ∧
      rook.type = some PieceType.rook ∧ rook.color = piece.color ∧ rook.hasMoved = false) ∧
    (if piece.color = .white then
      (if a.col < b.col then gs.castlingRights.whiteKingSide = true
       else gs.castlingRights.whiteQueenSide = true)
     else
      (if a.col < b.col then gs.castlingRights.blackKingSide = true
       else gs.castlingRights.blackQueenSide = true)) ∧
    (∀ col : Int, min a.col (if a.col < b.col then (7:Int) else 0) < col →
        col < max a.col (if a.col < b.col then (7:Int) else 0) →
        bget gs.board a.row col = none) ∧
    (isSquareUnderAttack ⟨a.row, a.col⟩ (flipColor piece.color) gs = false ∧
     isSquareUnderAttack ⟨a.row, (a.col + b.col) / 2⟩ (flipColor piece.color) gs = false ∧
     isSquareUnderAttack ⟨a.row, b.col⟩ (flipColor piece.color) gs = false) := by
  obtain ⟨p0, hp0, hcp0, hvld, hcap, hmov, hwld⟩ := isValidMove_true a b gs hacc
  have hpp : p0 = piece := Option.some.inj (hp0.symm.trans hp)
  subst hpp
  have hcast : isCastlingValid p0 a b gs = true :=
    king_movement_to_castling p0 a b gs hk (by omega) hmov
  obtain ⟨e1, e2, e3, e4, e5, e6⟩ := isCastlingValid_true_elim p0 a b gs hcast
  refine ⟨e1, e3, e4, e5, ?_⟩
  by_cases hks : a.col < b.col
  · have hb2 : b.col = a.col + 2 := by omega
    have hmid : (a.col + b.col) / 2 = a.col + 1 := by omega
    rw [hmid, hb2]
    exact ⟨e6 a.col (by simp [hks]), e6 (a.col + 1) (by simp [hks]),
      e6 (a.col + 2) (by simp [hks])⟩
  · have hb2 : b.col = a.col - 2 := by omega
    have hmid : (a.col + b.col) / 2 = a.col - 1 := by omega
    rw [hmid, hb2]
    exact ⟨e6 a.col (by simp [hks]), e6 (a.col - 1) (by simp [hks]),
      e6 (a.col - 2) (by simp [hks])⟩

/-- C5 witness: the accepted castle e1-g1 in `gsCastle` satisfies every
condition of the theorem. -/
theorem c5_castling_conditions_witness :
    isValidMove ⟨7,4⟩ ⟨7,6⟩ gsCastle = true ∧
    ((mkP .king .white "wk" false).hasMoved = false ∧
     (∃ rook, getPieceAt gsCastle.board ⟨7, 7⟩ = some rook ∧
       rook.type = some PieceType.rook ∧
       rook.color = (mkP .king .white "wk" false).color ∧ rook.hasMoved = false) ∧
     gsCastle.castlingRights.whiteKingSide = true ∧
     (∀ col : Int, min (4:Int) 7 < col → col < max (4:Int) 7 →
        bget gsCastle.board 7 col = none) ∧
     (isSquareUnderAttack ⟨7, 4⟩ .black gsCastle = false ∧
      isSquareUnderAttack ⟨7, 5⟩ .black gsCastle = false ∧
      isSquareUnderAttack ⟨7, 6⟩ .black gsCastle = false)) :=
  ⟨by rfl,
   c5_castling_conditions gsCastle (mkP .king .white "wk" false) ⟨7,4⟩ ⟨7,6⟩
     (by rfl) rfl rfl (by rfl) (by rfl)⟩

/-- C7 amended: a king move with |Δrow| > 1 or |Δcol| > 1 is accepted by
`isValidMove` only when it is a same-row move on which `isCastlingValid`
succeeds; since `isCastlingValid` never requires |Δcol| = 2, same-row moves
of three or more columns toward a castleable rook can also be accepted (see
the counterexample). -/
theorem c7_wide_king_moves_are_castling (gs : GameState) (piece : ChessPiece)
    (a b : Position) (hp : getPieceAt gs.board a = some piece)
    (hk : piece.type = some PieceType.king)
    (hbig : 1 < (b.row - a.row).natAbs ∨ 1 < (b.col - a.col).natAbs)
    (hacc : isValidMove a b gs = true) :
    b.row = a.row ∧ isCastlingValid piece a b gs = true := by
  obtain ⟨p0, hp0, hcp0, hvld, hcap, hmov, hwld⟩ := isValidMove_true a b gs hacc
  have hpp : p0 = piece := Option.some.inj (hp0.symm.trans hp)
  subst hpp
  have hcast : isCastlingValid p0 a b gs = true :=
    king_movement_to_castling p0 a b gs hk (by omega) hmov
  exact ⟨(isCastlingValid_true_elim p0 a b gs hcast).2.1.symm, hcast⟩

/-- C7 witness for the amended claim: the accepted three-column king move in
`gsK3` is a same-row move on which `isCastlingValid` succeeds. -/
theorem c7_wide_king_moves_witness :
    isValidMove ⟨7,3⟩ ⟨7,6⟩ gsK3 = true ∧
    ((7:Int) = 7 ∧
     isCastlingValid (mkP .king .white "wk" false) ⟨7,3⟩ ⟨7,6⟩ gsK3 = true) :=
  ⟨by rfl,
   c7_wide_king_moves_are_castling gsK3 (mkP .king .white "wk" false) ⟨7,3⟩ ⟨7,6⟩
     (by rfl) rfl (by right; decide) (by rfl)⟩

/-- Clearing a square through `bset` always leaves that square empty for
`getPieceAt`, with no assumption on the board's shape. -/
theorem getPieceAt_bset_none (b : Board) (r c : Int) :
    getPieceAt (bset b r c none) ⟨r, c⟩ = none := by
  unfold getPieceAt
  cases hvp : isValidPosition ⟨r, c⟩ with
  | false => simp
  | true =>
    have hrc : 0 ≤ r ∧ 0 ≤ c := by
      simp [isValidPosition] at hvp
      omega
    rw [if_pos rfl]
    unfold bget bset
    rw [if_pos hrc, if_pos hrc]
    rw [List.get?_set_eq]
    cases b.get? r.toNat with
    | none => rfl
    | some row0 =>
      dsimp only [Option.map_some, Option.getD_some]
      rw [List.get?_set_eq]
      cases row0.get? c.toNat with
      | none => rfl
      | some v => rfl

/-- C8 counterexample: the en-passant capture in `gsEP2` removes the
double-stepped pawn from g5 (square (3,6)) but the resulting
`capturedPieces` list is still empty — the captured pawn is never appended,
because the capture snapshot is taken from the (empty) destination square. -/
theorem c8_captured_pawn_not_listed :
    isEnPassantMove (mkP .pawn .white "wp" true) ⟨3,5⟩ ⟨2,6⟩ gsEP2 = true ∧
    (makeMove ⟨3,5⟩ ⟨2,6⟩ gsEP2).map
        (fun s => (getPieceAt s.board ⟨3,6⟩, s.capturedPieces)) =
      some (none, []) :=
  ⟨by rfl, by rfl⟩

/-- C8 amended: an accepted en-passant capture clears the square directly
behind the destination (same column, one rank back along the opponent's
forward direction), but the captured pawn is NOT appended to the
captured-pieces list: `capturedPieces` is unchanged, because the source's
capture snapshot reads the empty destination square. -/
theorem c8_enPassant_effect (fromPos toPos : Position) (gs gs' : GameState)
    (piece : ChessPiece)
    (hp : getPieceAt gs.board fromPos = some piece)
    (hep : isEnPassantMove piece fromPos toPos gs = true)
    (h : makeMove fromPos toPos gs = some gs') :
    getPieceAt gs'.board
        ⟨(if piece.color = .white then toPos.row + 1 else toPos.row - 1), toPos.col⟩ = none ∧
    gs'.capturedPieces = gs.capturedPieces := by
  obtain ⟨p0, note, hv, hb0, rfl⟩ := makeMove_eq_result fromPos toPos gs gs' h
  have hpp : p0 = piece := by
    unfold getPieceAt at hp
    by_cases hvp : isValidPosition fromPos = true
    · rw [if_pos hvp] at hp
      exact Option.some.inj (hb0.symm.trans hp)
    · rw [if_neg hvp] at hp
      exact absurd hp (by simp)
  subst hpp
  constructor
  · show getPieceAt (makeMoveCore fromPos toPos gs p0 note).board _ = none
    unfold makeMoveCore
    dsimp only
    rw [hep, if_pos rfl]
    exact getPieceAt_bset_none _ _ _
  · obtain ⟨p1, hp1, hc1, hval, hcap1, hmov1, hwld1⟩ := isValidMove_true fromPos toPos gs hv
    have hto : bget gs.board toPos.row toPos.col = none := by
      unfold isEnPassantMove at hep
      simp only [Bool.and_eq_true] at hep
      have hdest := hep.1.2
      rw [Bool.not_eq_true'] at hdest
      unfold getPieceAt at hdest
      rw [if_pos hval] at hdest
      simpa using hdest
    show (makeMoveCore fromPos toPos gs p0 note).capturedPieces = gs.capturedPieces
    have hcp : (makeMoveCore fromPos toPos gs p0 note).capturedPieces =
        (match bget gs.board toPos.row toPos.col with
         | some cp => gs.capturedPieces ++ [cp]
         | none => gs.capturedPieces) := rfl
    rw [hcp, hto]

/-- C8 witness for the amended claim, at the en-passant position `gsEP2`. -/
theorem c8_enPassant_effect_witness :
    isEnPassantMove (mkP .pawn .white "wp" true) ⟨3,5⟩ ⟨2,6⟩ gsEP2 = true ∧
    makeMove ⟨3,5⟩ ⟨2,6⟩ gsEP2 = some c8ExState ∧
    (getPieceAt c8ExState.board ⟨3, 6⟩ = none ∧
     c8ExState.capturedPieces = gsEP2.capturedPieces) :=
  ⟨by rfl, by rfl,
   c8_enPassant_effect ⟨3,5⟩ ⟨2,6⟩ gsEP2 c8ExState (mkP .pawn .white "wp" true)
     (by rfl) (by rfl) (by rfl)⟩

theorem getPieceAt_some_valid (b : Board) (q : Position) (p : ChessPiece)
    (h : getPieceAt b q = some p) : isValidPosition q = true := by
  unfold getPieceAt at h
  by_cases hv : isValidPosition q = true
  · exact hv
  · rw [if_neg hv] at h
    exact Option.noConfusion h

/-- `bset` preserves the 8×8 shape. -/
theorem bset_shape (b : Board) (hs : boardShape b) (r c : Int)
    (v : Option ChessPiece) : boardShape (bset b r c v) := by
  unfold bset
  split
  · by_cases hr : r.toNat < b.length
    · refine ⟨by rw [List.length_set]; exact hs.1, ?_⟩
      intro row hrow
      rcases List.mem_or_eq_of_mem_set hrow with hmem | heq
      · exact hs.2 row hmem
      · subst heq
        rw [List.length_set]
        rw [List.get?_eq_get hr]
        exact hs.2 _ (List.get_mem b r.toNat hr)
    · rw [List.set_eq_of_length_le (by omega)]
      exact hs
  · exact hs

/-- Reading a board after a raw cell assignment: the assigned cell when the
target square is the (valid) assigned one, the old board otherwise. -/
theorem getPieceAt_bset (b : Board) (hs : boardShape b) (r c : Int)
    (v : Option ChessPiece) (q : Position) :
    getPieceAt (bset b r c v) q =
      if q.row = r ∧ q.col = c ∧ isValidPosition q = true then v
      else getPieceAt b q := by
  by_cases hvq : isValidPosition q = true
  case neg =>
    rw [if_neg (by tauto)]
    unfold getPieceAt
    rw [if_neg hvq, if_neg hvq]
  case pos =>
    have hq4 : 0 ≤ q.row ∧ q.row < 8 ∧ 0 ≤ q.col ∧ q.col < 8 := by
      simp [isValidPosition] at hvq
      omega
    by_cases hqc : q.row = r ∧ q.col = c
    case pos =>
      obtain ⟨h1, h2⟩ := hqc
      subst h1
      subst h2
      rw [if_pos ⟨rfl, rfl, hvq⟩]
      unfold getPieceAt bget bset
      rw [if_pos hvq, if_pos ⟨hq4.1, hq4.2.2.1⟩, if_pos ⟨hq4.1, hq4.2.2.1⟩]
      have hrlen : q.row.toNat < b.length := by rw [hs.1]; omega
      rw [List.get?_set_eq, List.get?_eq_get hrlen]
      simp only [Option.map_eq_map, Option.map_some', Option.getD_some]
      have hclen : q.col.toNat < (b.get ⟨q.row.toNat, hrlen⟩).length := by
        rw [hs.2 _ (List.get_mem b q.row.toNat hrlen)]
        omega
      rw [List.get?_set_eq, List.get?_eq_get hclen]
      rfl
    case neg =>
      rw [if_neg (by tauto)]
      unfold getPieceAt bget bset
      rw [if_pos hvq, if_pos hvq]
      by_cases hrc : 0 ≤ r ∧ 0 ≤ c
      case neg => rw [if_neg hrc]
      case pos =>
        rw [if_pos hrc]
        by_cases hrow : q.row = r
        case neg =>
          rw [List.get?_set_ne _ _ (show r.toNat ≠ q.row.toNat by omega)]
        case pos =>
          have hcc : q.col ≠ c := fun hc => hqc ⟨hrow, hc⟩
          subst hrow
          rw [List.get?_set_eq]
          cases hb : b.get? q.row.toNat with
          | none => rfl
          | some row0 =>
            simp only [Option.map_eq_map, Option.map_some', Option.getD_some,
              List.get?_set_ne _ _ (show c.toNat ≠ q.col.toNat by omega)]

theorem covers_refl (b : Board) : Covers b b :=
  fun q p' h => ⟨q, p', h, rfl, rfl, rfl⟩

theorem covers_bset (base b : Board) (hs : boardShape b) (r c : Int)
    (v : Option ChessPiece) (hcov : Covers base b)
    (hv : ∀ p', v = some p' →
      ∃ q0 p0, getPieceAt base q0 = some p0 ∧ p0.type = p'.type ∧
        p0.color = p'.color ∧ p0.id = p'.id) :
    Covers base (bset b r c v) := by
  intro q p' hq
  rw [getPieceAt_bset b hs r c v q] at hq
  split at hq
  · exact hv p' hq
  · exact hcov q p' hq

/-- C10: `makeMove` never changes a piece's kind: every piece on the
resulting board stems from a piece of the pre-move board with the same type,
color and identity token (a pawn reaching the last rank stays a pawn), and
the promotion field of the produced move record is never set. -/
theorem c10_no_promotion (fromPos toPos : Position) (gs gs' : GameState)
    (hs : boardShape gs.board) (h : makeMove fromPos toPos gs = some gs') :
    (∀ q p', getPieceAt gs'.board q = some p' →
       ∃ q0 p0, getPieceAt gs.board q0 = some p0 ∧ p0.type = p'.type ∧
         p0.color = p'.color ∧ p0.id = p'.id) ∧
    (∃ m, gs'.lastMove = some m ∧ m.promotion = none ∧
       gs'.moveHistory = gs.moveHistory ++ [m]) := by
  obtain ⟨p0, note, hv, hb0, rfl⟩ := makeMove_eq_result fromPos toPos gs gs' h
  obtain ⟨p1, hp1, hc1, hval, hcap1, hmov1, hwld1⟩ := isValidMove_true fromPos toPos gs hv
  have hpv : isValidPosition fromPos = true := getPieceAt_some_valid _ _ _ hp1
  have hgp : getPieceAt gs.board fromPos = some p0 := by
    unfold getPieceAt
    rw [if_pos hpv]
    exact hb0
  have hcov1 : Covers gs.board
      (bset gs.board toPos.row toPos.col (some { p0 with hasMoved := true })) := by
    refine covers_bset _ _ hs _ _ _ (covers_refl _) ?_
    intro p' hp'
    rcases Option.some.inj hp' with rfl
    exact ⟨fromPos, p0, hgp, rfl, rfl, rfl⟩
  have hsh1 : boardShape
      (bset gs.board toPos.row toPos.col (some { p0 with hasMoved := true })) :=
    bset_shape _ hs _ _ _
  have hcov2 : Covers gs.board
      (bset (bset gs.board toPos.row toPos.col (some { p0 with hasMoved := true }))
        fromPos.row fromPos.col none) := by
    refine covers_bset _ _ hsh1 _ _ _ hcov1 ?_
    intro p' hp'
    exact absurd hp' (by simp)
  have hsh2 : boardShape
      (bset (bset gs.board toPos.row toPos.col (some { p0 with hasMoved := true }))
        fromPos.row fromPos.col none) := bset_shape _ hsh1 _ _ _
  have hcovH : Covers gs.board
      (handleCastling fromPos toPos
        (bset (bset gs.board toPos.row toPos.col (some { p0 with hasMoved := true }))
          fromPos.row fromPos.col none)) := by
    unfold handleCastling
    dsimp only
    refine covers_bset _ _ (bset_shape _ hsh2 _ _ _) _ _ _ ?_ (fun p' hp' => absurd hp' (by simp))
    refine covers_bset _ _ hsh2 _ _ _ hcov2 ?_
    intro p' hp'
    cases hrk : bget
        (bset (bset gs.board toPos.row toPos.col (some { p0 with hasMoved := true }))
          fromPos.row fromPos.col none)
        fromPos.row (if decide (fromPos.col < toPos.col) = true then 7 else 0) with
    | none => rw [hrk] at hp'; exact absurd hp' (by simp)
    | some rk =>
      rw [hrk] at hp'
      have hp2 : { rk with hasMoved := true } = p' := by simpa using hp'
      rcases hp2 with rfl
      have hvrk : isValidPosition
          (⟨fromPos.row, if decide (fromPos.col < toPos.col) = true then (7:Int) else 0⟩ :
            Position) = true := by
        simp only [isValidPosition, Bool.and_eq_true, decide_eq_true_eq] at hpv ⊢
        constructor
        · constructor
          · constructor
            · exact hpv.1.1.1
            · exact hpv.1.1.2
          · split <;> omega
        · split <;> omega
      have hget2 : getPieceAt
          (bset (bset gs.board toPos.row toPos.col (some { p0 with hasMoved := true }))
            fromPos.row fromPos.col none)
          ⟨fromPos.row, if decide (fromPos.col < toPos.col) = true then 7 else 0⟩ =
          some rk := by
        unfold getPieceAt
        rw [if_pos hvrk]
        exact hrk
      obtain ⟨q0, pp0, hq0, ht, hc, hid⟩ := hcov2 _ _ hget2
      exact ⟨q0, pp0, hq0, ht, hc, hid⟩
  refine ⟨?_, ⟨_, rfl, rfl, rfl⟩⟩
  show Covers gs.board (makeMoveCore fromPos toPos gs p0 note).board
  unfold makeMoveCore
  dsimp only
  split
  · split
    · exact covers_bset _ _
        (by unfold handleCastling; dsimp only; exact bset_shape _ (bset_shape _ hsh2 _ _ _) _ _ _)
        _ _ _ hcovH (fun p' hp' => absurd hp' (by simp))
    · exact covers_bset _ _ hsh2 _ _ _ hcov2 (fun p' hp' => absurd hp' (by simp))
  · split
    · exact hcovH
    · exact hcov2

/-- C10 witness: the kingside castle in `gsCastle` (which also moves the
rook) preserves every piece's type, color and identity, and produces a move
record with no promotion. -/
theorem c10_no_promotion_witness :
    makeMove ⟨7,4⟩ ⟨7,6⟩ gsCastle = some c10ExState ∧
    ((∀ q p', getPieceAt c10ExState.board q = some p' →
        ∃ q0 p0, getPieceAt gsCastle.board q0 = some p0 ∧ p0.type = p'.type ∧
          p0.color = p'.color ∧ p0.id = p'.id) ∧
     (∃ m, c10ExState.lastMove = some m ∧ m.promotion = none ∧
        c10ExState.moveHistory = gsCastle.moveHistory ++ [m])) :=
  ⟨by rfl,
   c10_no_promotion ⟨7,4⟩ ⟨7,6⟩ gsCastle c10ExState (by constructor <;> decide) (by rfl)⟩

/-! ### Round-trip support: characters and single ranks -/

theorem pieceToFENChar_spec (p : ChessPiece) (t : PieceType) (ht : p.type = some t) :
    ∃ ch, pieceToFENChar p = some ch ∧ ¬('1' ≤ ch ∧ ch ≤ '8') ∧ ch ≠ '/' ∧ ch ≠ ' ' ∧
      ∀ id, (FENCharToPiece ch id).type = some t ∧ (FENCharToPiece ch id).color = p.color := by
  obtain ⟨pt, pc, pid, pm⟩ := p
  dsimp only at ht
  subst ht
  cases t <;> cases pc <;>
    first
    | exact ⟨'K', rfl, by decide, by decide, by decide, fun id => ⟨rfl, rfl⟩⟩
    | exact ⟨'k', rfl, by decide, by decide, by decide, fun id => ⟨rfl, rfl⟩⟩
    | exact ⟨'Q', rfl, by decide, by decide, by decide, fun id => ⟨rfl, rfl⟩⟩
    | exact ⟨'q', rfl, by decide, by decide, by decide, fun id => ⟨rfl, rfl⟩⟩
    | exact ⟨'R', rfl, by decide, by decide, by decide, fun id => ⟨rfl, rfl⟩⟩
    | exact ⟨'r', rfl, by decide, by decide, by decide, fun id => ⟨rfl, rfl⟩⟩
    | exact ⟨'B', rfl, by decide, by decide, by decide, fun id => ⟨rfl, rfl⟩⟩
    | exact ⟨'b', rfl, by decide, by decide, by decide, fun id => ⟨rfl, rfl⟩⟩
    | exact ⟨'N', rfl, by decide, by decide, by decide, fun id => ⟨rfl, rfl⟩⟩
    | exact ⟨'n', rfl, by decide, by decide, by decide, fun id => ⟨rfl, rfl⟩⟩
    | exact ⟨'P', rfl, by decide, by decide, by decide, fun id => ⟨rfl, rfl⟩⟩
    | exact ⟨'p', rfl, by decide, by decide, by decide, fun id => ⟨rfl, rfl⟩⟩

/-- Parsing a run-length digit advances the column by its value. -/
theorem decode_digits (n : Nat) (h1 : 0 < n) (h8 : n ≤ 8) (cs : List Char)
    (acc : List (Option ChessPiece)) (row c : Nat) :
    decodeRowF ((toString n).toList ++ cs) acc row c = decodeRowF cs acc row (c + n) := by
  interval_cases n <;> rfl

/-- Parsing a non-digit character stores the re-parsed piece and advances by
one column. -/
theorem decodeRowF_cons_piece (ch : Char) (hnd : ¬('1' ≤ ch ∧ ch ≤ '8'))
    (cs : List Char) (acc : List (Option ChessPiece)) (row col : Nat) :
    decodeRowF (ch :: cs) acc row col =
      decodeRowF cs (acc.set col (some (FENCharToPiece ch s!"{ch}-{row}-{col}")))
        row (col + 1) := by
  simp only [decodeRowF]
  rw [if_neg hnd]

/-- A well-formed rank always encodes, and its encoding contains no space and
no slash. -/
theorem encodeRowF_exists (cells : List (Option ChessPiece))
    (hw : ∀ cell ∈ cells, cell.all (fun p => p.type.isSome) = true) :
    ∀ n : Nat, n + cells.length ≤ 8 →
    ∃ out, encodeRowF cells n = some out ∧ ∀ ch ∈ out, ch ≠ ' ' ∧ ch ≠ '/' := by
  induction cells with
  | nil =>
    intro n hn
    by_cases hn0 : 0 < n
    · refine ⟨(toString n).toList, by simp [encodeRowF, hn0], ?_⟩
      have h8 : n ≤ 8 := by simpa using hn
      intro c hc
      interval_cases n <;> (fin_cases hc <;> decide)
    · exact ⟨[], by simp [encodeRowF, hn0], by simp⟩
  | cons head rest IH =>
    intro n hn
    have hwr : ∀ cell ∈ rest, cell.all (fun p => p.type.isSome) = true :=
      fun cell hc => hw cell (List.mem_cons_of_mem _ hc)
    cases head with
    | none =>
      obtain ⟨out, hout, hch⟩ := IH hwr (n + 1) (by simp at hn ⊢; omega)
      exact ⟨out, hout, hch⟩
    | some p =>
      have hp : p.type.isSome = true := by
        have := hw (some p) (List.mem_cons_self _ _)
        simpa [Option.all] using this
      obtain ⟨t, ht⟩ := Option.isSome_iff_exists.mp hp
      obtain ⟨ch, hch, hnd, hns, hnsp, hrev⟩ := pieceToFENChar_spec p t ht
      obtain ⟨out', hout', hch'⟩ := IH hwr 0 (by simp at hn ⊢; omega)
      refine ⟨(if 0 < n then (toString n).toList else []) ++ ch :: out', ?_, ?_⟩
      · simp only [encodeRowF, hch, hout']
      · intro c hc
        rcases List.mem_append.mp hc with hd | hcons
        · by_cases hn0 : 0 < n
          · rw [if_pos hn0] at hd
            have h8 : n ≤ 8 := by simp at hn; omega
            interval_cases n <;> (fin_cases hd <;> decide)
          · rw [if_neg hn0] at hd
            exact absurd hd (List.not_mem_nil c)
        · rcases List.mem_cons.mp hcons with rfl | hm
          · exact ⟨hnsp, hns⟩
          · exact hch' c hm

/-- Decoding the encoding of a rank suffix writes exactly the re-parsed
pieces of that suffix, at the columns where they started. -/
theorem decodeRowF_encode (row : Nat) (cells : List (Option ChessPiece))
    (hw : ∀ cell ∈ cells, cell.all (fun p => p.type.isSome) = true) :
    ∀ (n : Nat) (out : List Char), n + cells.length ≤ 8 →
      encodeRowF cells n = some out →
      ∀ (acc : List (Option ChessPiece)) (c : Nat),
        decodeRowF out acc row c = writeCells row acc (c + n) cells := by
  induction cells with
  | nil =>
    intro n out hn hout acc c
    by_cases hn0 : 0 < n
    · have h8 : n ≤ 8 := by simpa using hn
      rw [show encodeRowF [] n = some (if 0 < n then (toString n).toList else [])
          from rfl, if_pos hn0] at hout
      obtain rfl := Option.some.inj hout
      rw [show (toString n).toList = (toString n).toList ++ ([] : List Char)
          from (List.append_nil _).symm]
      rw [decode_digits n hn0 h8]
      rfl
    · have hn0' : n = 0 := by omega
      subst hn0'
      rw [show encodeRowF [] 0 = some [] from rfl] at hout
      obtain rfl := Option.some.inj hout
      rfl
  | cons head rest IH =>
    intro n out hn hout acc c
    have hwr : ∀ cell ∈ rest, cell.all (fun p => p.type.isSome) = true :=
      fun cell hc => hw cell (List.mem_cons_of_mem _ hc)
    cases head with
    | none =>
      have hout2 : encodeRowF rest (n + 1) = some out := hout
      exact IH hwr (n + 1) out (by simp at hn ⊢; omega) hout2 acc c
    | some p =>
      have hp : p.type.isSome = true := by
        have := hw (some p) (List.mem_cons_self _ _)
        simpa [Option.all] using this
      obtain ⟨t, ht⟩ := Option.isSome_iff_exists.mp hp
      obtain ⟨ch, hch, hnd, hns, hnsp, hrev⟩ := pieceToFENChar_spec p t ht
      rw [show encodeRowF (some p :: rest) n =
          (match pieceToFENChar p with
           | none => none
           | some c0 =>
             match encodeRowF rest 0 with
             | none => none
             | some out2 =>
               some ((if 0 < n then (toString n).toList else []) ++ c0 :: out2))
          from rfl, hch] at hout
      cases hrest : encodeRowF rest 0 with
      | none => rw [hrest] at hout; exact Option.noConfusion hout
      | some out' =>
        rw [hrest] at hout
        have hout3 : some ((if 0 < n then (toString n).toList else []) ++ ch :: out') =
            some out := hout
        obtain rfl := Option.some.inj hout3
        have hrp : reparsedPiece p row (c + n) =
            FENCharToPiece ch s!"{ch}-{row}-{c + n}" := by
          simp only [reparsedPiece, hch]
        by_cases hn0 : 0 < n
        · rw [if_pos hn0, decode_digits n hn0 (by simp at hn; omega)]
          rw [decodeRowF_cons_piece ch hnd]
          rw [IH hwr 0 out' (by simp at hn; omega) hrest
            (acc.set (c + n) (some (FENCharToPiece ch s!"{ch}-{row}-{c + n}"))) (c + n + 1)]
          show _ = writeCells row
            (acc.set (c + n) (some (reparsedPiece p row (c + n)))) (c + n + 1) rest
          rw [hrp]
        · have hn0' : n = 0 := by omega
          subst hn0'
          rw [if_neg (by decide), List.nil_append]
          rw [decodeRowF_cons_piece ch hnd]
          rw [IH hwr 0 out' (by simp at hn; omega) hrest
            (acc.set c (some (FENCharToPiece ch s!"{ch}-{row}-{c}"))) (c + 1)]
          show _ = writeCells row
            (acc.set (c + 0) (some (reparsedPiece p row (c + 0)))) (c + 0 + 1) rest
          rw [hrp]
          rfl

/-- What each cell of `writeCells` holds. -/
theorem writeCells_get? (row : Nat) (cells : List (Option ChessPiece)) :
    ∀ (acc : List (Option ChessPiece)) (i : Nat), i + cells.length ≤ acc.length →
      ∀ j : Nat, j < acc.length →
        (writeCells row acc i cells).get? j =
          if i ≤ j ∧ j < i + cells.length then
            (match cells.getD (j - i) none with
             | some p => some (some (reparsedPiece p row j))
             | none => acc.get? j)
          else acc.get? j := by
  induction cells with
  | nil =>
    intro acc i hi j hj
    rw [if_neg (by simp only [List.length_nil]; omega)]
    rfl
  | cons head rest IH =>
    intro acc i hi j hj
    cases head with
    | none =>
      rw [show writeCells row acc i (none :: rest) = writeCells row acc (i + 1) rest
          from rfl,
        IH acc (i + 1) (by simp at hi; omega) j hj]
      by_cases hji2 : i + 1 ≤ j ∧ j < i + 1 + rest.length
      · rw [if_pos hji2, if_pos (by simp only [List.length_cons] at hji2 ⊢; omega)]
        have hshift : (none :: rest).getD (j - i) none = rest.getD (j - (i + 1)) none := by
          rw [show j - i = (j - (i + 1)) + 1 from by omega]
          rfl
        rw [hshift]
      · by_cases hj0 : j = i
        · subst hj0
          rw [if_neg hji2, if_pos (by simp only [List.length_cons]; omega)]
          rw [Nat.sub_self]
          rfl
        · rw [if_neg hji2, if_neg (by simp only [List.length_cons] at hji2 ⊢; omega)]
    | some p =>
      rw [show writeCells row acc i (some p :: rest) =
          writeCells row (acc.set i (some (reparsedPiece p row i))) (i + 1) rest
          from rfl,
        IH (acc.set i (some (reparsedPiece p row i))) (i + 1)
          (by rw [List.length_set]; simp at hi; omega) j (by rw [List.length_set]; omega)]
      by_cases hji2 : i + 1 ≤ j ∧ j < i + 1 + rest.length
      · rw [if_pos hji2, if_pos (by simp only [List.length_cons] at hji2 ⊢; omega)]
        have hshift : (some p :: rest).getD (j - i) none = rest.getD (j - (i + 1)) none := by
          rw [show j - i = (j - (i + 1)) + 1 from by omega]
          rfl
        rw [hshift]
        cases hgd : rest.getD (j - (i + 1)) none with
        | none => rw [List.get?_set_ne _ _ (by omega)]
        | some q => rfl
      · by_cases hj0 : j = i
        · subst hj0
          rw [if_neg hji2, if_pos (by simp only [List.length_cons]; omega)]
          rw [Nat.sub_self]
          rw [List.get?_set_eq, List.get?_eq_get hj]
          rfl
        · rw [if_neg hji2, if_neg (by simp only [List.length_cons] at hji2 ⊢; omega)]
          rw [List.get?_set_ne _ _ (by omega)]

/-- The column padding of the serializer is the identity on 8-cell ranks. -/
theorem padRow_eq (row : List (Option ChessPiece)) (h : row.length = 8) :
    padRow row = row := by
  apply List.ext_get?
  intro n
  unfold padRow
  rw [List.get?_map]
  by_cases hn : n < 8
  · rw [List.get?_range hn]
    have hlt : n < row.length := by omega
    simp only [Option.map_some', List.get?_eq_getElem?, List.getElem?_eq_getElem hlt,
      Option.getD_some]
  · rw [List.get?_eq_none.mpr (by simpa using hn), List.get?_eq_none.mpr (by omega)]
    rfl

theorem jsSplit_append (A R : List Char) (sep : Char) (hA : sep ∉ A) :
    jsSplit (A ++ sep :: R) sep = A :: jsSplit R sep := by
  induction A with
  | nil => simp [jsSplit]
  | cons c cs IH =>
    have hc : ¬(c = sep) := fun h => hA (h ▸ List.mem_cons_self c cs)
    have hcs : sep ∉ cs := fun hm => hA (List.mem_cons_of_mem _ hm)
    rw [List.cons_append]
    rw [show jsSplit (c :: (cs ++ sep :: R)) sep =
        (if c = sep then [] :: jsSplit (cs ++ sep :: R) sep
         else
           match jsSplit (cs ++ sep :: R) sep with
           | [] => [[c]]
           | h :: t => (c :: h) :: t) from rfl]
    rw [if_neg hc, IH hcs]

theorem jsSplit_no_sep (A : List Char) (sep : Char) (hA : sep ∉ A) :
    jsSplit A sep = [A] := by
  induction A with
  | nil => rfl
  | cons c cs IH =>
    have hc : ¬(c = sep) := fun h => hA (h ▸ List.mem_cons_self c cs)
    rw [show jsSplit (c :: cs) sep =
        (if c = sep then [] :: jsSplit cs sep
         else
           match jsSplit cs sep with
           | [] => [[c]]
           | h :: t => (c :: h) :: t) from rfl]
    rw [if_neg hc, IH (fun hm => hA (List.mem_cons_of_mem _ hm))]

theorem jsSplit_joinSlash (L : List (List Char)) (h : ∀ l ∈ L, '/' ∉ l) :
    L ≠ [] → jsSplit (joinSlash L) '/' = L := by
  induction L with
  | nil => intro h2; exact absurd rfl h2
  | cons a t IH =>
    intro _
    cases t with
    | nil => exact jsSplit_no_sep a '/' (h a (List.mem_cons_self _ _))
    | cons b t2 =>
      rw [show joinSlash (a :: b :: t2) = a ++ '/' :: joinSlash (b :: t2) from rfl]
      rw [jsSplit_append a _ '/' (h a (List.mem_cons_self _ _))]
      rw [IH (fun l hl => h l (List.mem_cons_of_mem _ hl)) (by simp)]

/-- The square-label codec inverts itself on valid board squares. -/
theorem label_round_trip (r c : Int) (h : isValidPosition ⟨r, c⟩ = true) :
    labelToPosition (positionToLabel ⟨r, c⟩) = some ⟨r, c⟩ ∧
    positionToLabel ⟨r, c⟩ ≠ ['-'] ∧
    ∀ ch ∈ positionToLabel ⟨r, c⟩, ch ≠ ' ' := by
  have hb : 0 ≤ r ∧ r < 8 ∧ 0 ≤ c ∧ c < 8 := by
    simp [isValidPosition] at h
    omega
  obtain ⟨h1, h2, h3, h4⟩ := hb
  interval_cases r <;> interval_cases c <;>
    exact ⟨by decide, by decide, by decide⟩

/-- The castling field round-trips through `contains` and holds no space. -/
theorem castlingStr_contains (cr : CastlingRights) :
    ((castlingStr cr).contains 'K' = cr.whiteKingSide) ∧
    ((castlingStr cr).contains 'Q' = cr.whiteQueenSide) ∧
    ((castlingStr cr).contains 'k' = cr.blackKingSide) ∧
    ((castlingStr cr).contains 'q' = cr.blackQueenSide) ∧
    (∀ ch ∈ castlingStr cr, ch ≠ ' ') := by
  obtain ⟨a, b, c, d⟩ := cr
  cases a <;> cases b <;> cases c <;> cases d <;>
    exact ⟨by decide, by decide, by decide, by decide, by decide⟩

/-- Re-parsing the character written for a well-typed piece preserves its
type and color. -/
theorem reparsedPiece_tc (p : ChessPiece) (t : PieceType) (ht : p.type = some t)
    (row col : Nat) :
    (reparsedPiece p row col).type = p.type ∧
    (reparsedPiece p row col).color = p.color := by
  obtain ⟨ch, hch, -, -, -, hrev⟩ := pieceToFENChar_spec p t ht
  simp only [reparsedPiece, hch]
  exact ⟨(hrev _).1.trans ht.symm, (hrev _).2⟩

theorem mem_joinSlash (L : List (List Char)) (ch : Char) (h : ch ∈ joinSlash L) :
    (∃ l ∈ L, ch ∈ l) ∨ ch = '/' := by
  induction L with
  | nil => exact absurd h (List.not_mem_nil ch)
  | cons a t IH =>
    cases t with
    | nil =>
      exact Or.inl ⟨a, List.mem_cons_self _ _, h⟩
    | cons b t2 =>
      rw [show joinSlash (a :: b :: t2) = a ++ '/' :: joinSlash (b :: t2) from rfl] at h
      rcases List.mem_append.mp h with ha | hrest
      · exact Or.inl ⟨a, List.mem_cons_self _ _, ha⟩
      · rcases List.mem_cons.mp hrest with rfl | hm
        · exact Or.inr rfl
        · rcases IH hm with ⟨l, hl, hcl⟩ | hsl
          · exact Or.inl ⟨l, List.mem_cons_of_mem _ hl, hcl⟩
          · exact Or.inr hsl

/-- What each cell of a decoded rank holds, in terms of the original rank. -/
theorem decodedRow_spec (k : Nat) (R : List (Option ChessPiece)) (o : List Char)
    (hlen : R.length = 8)
    (hwf : ∀ cell ∈ R, cell.all (fun p => p.type.isSome) = true)
    (henc : encodeRowF R 0 = some o) (j : Nat) (hj : j < 8) :
    (decodeRowF o (List.replicate 8 none) k 0).get? j =
      some ((R.getD j none).map (fun p => reparsedPiece p k j)) := by
  rw [decodeRowF_encode k R hwf 0 o (by omega) henc (List.replicate 8 none) 0]
  rw [writeCells_get? k R (List.replicate 8 none) 0
    (by rw [List.length_replicate]; omega) j (by rw [List.length_replicate]; omega)]
  rw [if_pos (by omega)]
  rw [show j - 0 = j from rfl]
  cases hcell : R.getD j none with
  | some p => rfl
  | none =>
    rw [List.get?_eq_get (by rw [List.length_replicate]; omega)]
    rw [List.get_replicate]
    rfl

/-- Splits a length-8 list into its entries. -/
theorem list_eight {α : Type} (l : List α) (h : l.length = 8) :
    ∃ a b c d e f g k, l = [a, b, c, d, e, f, g, k] := by
  obtain _ | ⟨a, l⟩ := l
  · simp at h
  obtain _ | ⟨b, l⟩ := l
  · simp at h
  obtain _ | ⟨c, l⟩ := l
  · simp at h
  obtain _ | ⟨d, l⟩ := l
  · simp at h
  obtain _ | ⟨e, l⟩ := l
  · simp at h
  obtain _ | ⟨f, l⟩ := l
  · simp at h
  obtain _ | ⟨g, l⟩ := l
  · simp at h
  obtain _ | ⟨k, l⟩ := l
  · simp at h
  obtain _ | ⟨x, l⟩ := l
  · exact ⟨a, b, c, d, e, f, g, k, rfl⟩
  · simp at h

/-- C9 amended: `FENToGameState` has no decode-failure signalling.  Any input
with fewer than four space-separated fields makes the source throw (reading
`parts[3]`, which is `undefined`, inside `chessNotationToPosition`) — a
crash, modelled as `none` — and an unrecognized piece letter is silently
stored as a piece with `undefined` type inside an ordinarily returned
game state. -/
theorem c9_missing_fields_crash :
    (∀ fen : List Char, (jsSplit fen ' ').length < 4 → FENToGameState fen = none) ∧
    (FENToGameState "8/8/8/8/8/8/8/7x w - - 0 1".toList).map
        (fun gs => getPieceAt gs.board ⟨7,7⟩) =
      some (some ⟨none, .black, "x-7-7", false⟩) := by
  constructor
  · intro fen hlen
    have h3 : (jsSplit fen ' ').get? 3 = none := by
      rw [List.get?_eq_none]
      omega
    simp only [FENToGameState, h3]
  · rfl

/-- C9 witness for the amended claim: the input "x" has one field and
crashes. -/
theorem c9_missing_fields_crash_witness :
    (jsSplit "x".toList ' ').length < 4 ∧ FENToGameState "x".toList = none :=
  ⟨by decide, c9_missing_fields_crash.1 "x".toList (by decide)⟩

/-- The observable content of a decoded cell (piece type and color) equals
that of the corresponding cell of the original rank. -/
theorem decodedCell_spec (k : Nat) (R : List (Option ChessPiece)) (o : List Char)
    (hR : R.length = 8)
    (hw : ∀ cell ∈ R, cell.all (fun p => p.type.isSome) = true)
    (henc : encodeRowF R 0 = some o) (j : Nat) (hj : j < 8) :
    (((decodeRowF o (List.replicate 8 none) k 0).get? j).getD none).map
        (fun p => (p.type, p.color)) =
      ((R.get? j).getD none).map (fun p => (p.type, p.color)) := by
  rw [decodedRow_spec k R o hR hw henc j hj]
  simp only [Option.getD_some]
  have hjl : j < R.length := by omega
  rw [List.get?_eq_get hjl]
  simp only [Option.getD_some]
  rw [List.getD_eq_get R none hjl]
  cases hcell : R.get ⟨j, hjl⟩ with
  | none => rfl
  | some p =>
    have hpmem : some p ∈ R := by
      rw [← hcell]
      exact List.get_mem R j hjl
    have hp : p.type.isSome = true := by
      have := hw (some p) hpmem
      simpa [Option.all] using this
    obtain ⟨t, ht⟩ := Option.isSome_iff_exists.mp hp
    obtain ⟨htp, hcp⟩ := reparsedPiece_tc p t ht k j
    simp [htp, hcp]

/-- `FENToGameState` on a six-field record whose first four fields are
space-free: each field lands where the source's indexing reads it. -/
theorem FENToGameState_fields (B C2 C3 C4f T : List Char)
    (hB : ' ' ∉ B) (hC2 : ' ' ∉ C2) (hC3 : ' ' ∉ C3) (hC4 : ' ' ∉ C4f) :
    FENToGameState (B ++ ' ' :: C2 ++ ' ' :: C3 ++ ' ' :: C4f ++
        ' ' :: '0' :: ' ' :: T) =
      match (List.range 8).foldlM
          (fun (b : Board) row =>
            match (jsSplit B '/').get? row with
            | none => none
            | some rowChars =>
              some (b.set row (decodeRowF rowChars (List.replicate 8 none) row 0)))
          (List.replicate 8 (List.replicate 8 none)) with
      | none => none
      | some board =>
        some { board := board
               currentPlayer := if C2 = ['w'] then .white else .black
               moveHistory := []
               capturedPieces := []
               gameStatus := .playing
               winner := none
               lastMove := none
               enPassantTarget := if C4f ≠ ['-'] then labelToPosition C4f else none
               castlingRights :=
                 { whiteKingSide := C3.contains 'K'
                   whiteQueenSide := C3.contains 'Q'
                   blackKingSide := C3.contains 'k'
                   blackQueenSide := C3.contains 'q' } } := by
  have hParts : jsSplit (B ++ ' ' :: C2 ++ ' ' :: C3 ++ ' ' :: C4f ++
      ' ' :: '0' :: ' ' :: T) ' ' =
      B :: C2 :: C3 :: C4f :: ['0'] :: jsSplit T ' ' := by
    simp only [List.append_assoc, List.cons_append]
    rw [jsSplit_append B _ ' ' hB]
    rw [jsSplit_append C2 _ ' ' hC2]
    rw [jsSplit_append C3 _ ' ' hC3]
    rw [jsSplit_append C4f _ ' ' hC4]
    rw [show ('0' :: ' ' :: T) = ['0'] ++ ' ' :: T from rfl]
    rw [jsSplit_append ['0'] T ' ' (by decide)]
  simp only [FENToGameState, hParts]
  rw [show (B :: C2 :: C3 :: C4f :: ['0'] :: jsSplit T ' ').headD [] = B from rfl]
  rw [show (B :: C2 :: C3 :: C4f :: ['0'] :: jsSplit T ' ').get? 1 = some C2 from rfl]
  rw [show (B :: C2 :: C3 :: C4f :: ['0'] :: jsSplit T ' ').get? 2 = some C3 from rfl]
  rw [show (B :: C2 :: C3 :: C4f :: ['0'] :: jsSplit T ' ').get? 3 = some C4f from rfl]
  simp only [Option.some.injEq]

/-- C3 amended: `makeMove` never sets the winner: the `winner` field of every
state it produces is unset, including on checkmate. -/
theorem c3_winner_never_set (fromPos toPos : Position) (gs gs' : GameState)
    (h : makeMove fromPos toPos gs = some gs') : gs'.winner = none := by
  obtain ⟨piece, note, -, -, rfl⟩ := makeMove_eq_result fromPos toPos gs gs' h
  rfl

/-- C3 witness for the amended claim, at the checkmate position `gsMate`. -/
theorem c3_winner_never_set_witness :
    makeMove ⟨7,1⟩ ⟨1,1⟩ gsMate = some c3ExState ∧ c3ExState.winner = none :=
  ⟨by rfl, c3_winner_never_set ⟨7,1⟩ ⟨1,1⟩ gsMate c3ExState (by rfl)⟩

/-- C4: serializing a well-formed game state with `gameStateToFEN` and parsing
the result back with `FENToGameState` reproduces the board occupancy (piece
type and color on every square), the side to move, the four castling-rights
booleans, and the en-passant target (moved-flags excluded). -/
theorem c4_fen_round_trip (gs : GameState) (h : wellFormedState gs) :
    ∃ fen gs', gameStateToFEN gs = some fen ∧ FENToGameState fen = some gs' ∧
      (∀ pos : Position,
        (getPieceAt gs'.board pos).map (fun p => (p.type, p.color)) =
          (getPieceAt gs.board pos).map (fun p => (p.type, p.color))) ∧
      gs'.currentPlayer = gs.currentPlayer ∧
      gs'.castlingRights = gs.castlingRights ∧
      gs'.enPassantTarget = gs.enPassantTarget := by
  obtain ⟨⟨hlen, hrlen⟩, hwf, hep⟩ := h
  obtain ⟨R0, R1, R2, R3, R4, R5, R6, R7, hb⟩ := list_eight gs.board hlen
  have hl0 : R0.length = 8 := hrlen R0 (by rw [hb]; simp)
  have hl1 : R1.length = 8 := hrlen R1 (by rw [hb]; simp)
  have hl2 : R2.length = 8 := hrlen R2 (by rw [hb]; simp)
  have hl3 : R3.length = 8 := hrlen R3 (by rw [hb]; simp)
  have hl4 : R4.length = 8 := hrlen R4 (by rw [hb]; simp)
  have hl5 : R5.length = 8 := hrlen R5 (by rw [hb]; simp)
  have hl6 : R6.length = 8 := hrlen R6 (by rw [hb]; simp)
  have hl7 : R7.length = 8 := hrlen R7 (by rw [hb]; simp)
  have hw0 := hwf R0 (by rw [hb]; simp)
  have hw1 := hwf R1 (by rw [hb]; simp)
  have hw2 := hwf R2 (by rw [hb]; simp)
  have hw3 := hwf R3 (by rw [hb]; simp)
  have hw4 := hwf R4 (by rw [hb]; simp)
  have hw5 := hwf R5 (by rw [hb]; simp)
  have hw6 := hwf R6 (by rw [hb]; simp)
  have hw7 := hwf R7 (by rw [hb]; simp)
  obtain ⟨o0, ho0, hc0⟩ := encodeRowF_exists R0 hw0 0 (by omega)
  obtain ⟨o1, ho1, hc1⟩ := encodeRowF_exists R1 hw1 0 (by omega)
  obtain ⟨o2, ho2, hc2⟩ := encodeRowF_exists R2 hw2 0 (by omega)
  obtain ⟨o3, ho3, hc3⟩ := encodeRowF_exists R3 hw3 0 (by omega)
  obtain ⟨o4, ho4, hc4⟩ := encodeRowF_exists R4 hw4 0 (by omega)
  obtain ⟨o5, ho5, hc5⟩ := encodeRowF_exists R5 hw5 0 (by omega)
  obtain ⟨o6, ho6, hc6⟩ := encodeRowF_exists R6 hw6 0 (by omega)
  obtain ⟨o7, ho7, hc7⟩ := encodeRowF_exists R7 hw7 0 (by omega)
  have hp0 : padRow R0 = R0 := padRow_eq R0 hl0
  have hp1 : padRow R1 = R1 := padRow_eq R1 hl1
  have hp2 : padRow R2 = R2 := padRow_eq R2 hl2
  have hp3 : padRow R3 = R3 := padRow_eq R3 hl3
  have hp4 : padRow R4 = R4 := padRow_eq R4 hl4
  have hp5 : padRow R5 = R5 := padRow_eq R5 hl5
  have hp6 : padRow R6 = R6 := padRow_eq R6 hl6
  have hp7 : padRow R7 = R7 := padRow_eq R7 hl7
  have hEB : encodeBoard gs.board =
      some (joinSlash [o0, o1, o2, o3, o4, o5, o6, o7]) := by
    rw [hb]
    unfold encodeBoard
    have hm : (List.range 8).mapM
        (fun r => ((([R0, R1, R2, R3, R4, R5, R6, R7] : Board).get? r).bind
          fun row => encodeRowF (padRow row) 0)) =
        some [o0, o1, o2, o3, o4, o5, o6, o7] := by
      rw [show List.range 8 = [0, 1, 2, 3, 4, 5, 6, 7] from rfl]
      simp only [List.mapM_cons, List.mapM_nil,
        show (([R0, R1, R2, R3, R4, R5, R6, R7] : Board).get? 0) = some R0 from rfl,
        show (([R0, R1, R2, R3, R4, R5, R6, R7] : Board).get? 1) = some R1 from rfl,
        show (([R0, R1, R2, R3, R4, R5, R6, R7] : Board).get? 2) = some R2 from rfl,
        show (([R0, R1, R2, R3, R4, R5, R6, R7] : Board).get? 3) = some R3 from rfl,
        show (([R0, R1, R2, R3, R4, R5, R6, R7] : Board).get? 4) = some R4 from rfl,
        show (([R0, R1, R2, R3, R4, R5, R6, R7] : Board).get? 5) = some R5 from rfl,
        show (([R0, R1, R2, R3, R4, R5, R6, R7] : Board).get? 6) = some R6 from rfl,
        show (([R0, R1, R2, R3, R4, R5, R6, R7] : Board).get? 7) = some R7 from rfl]
      simp [hp0, hp1, hp2, hp3, hp4, hp5, hp6, hp7,
        ho0, ho1, ho2, ho3, ho4, ho5, ho6, ho7]
    rw [hm]
  have hFEN : gameStateToFEN gs =
      some (joinSlash [o0, o1, o2, o3, o4, o5, o6, o7] ++
        ' ' :: (if gs.currentPlayer = PieceColor.white then ['w'] else ['b']) ++
        ' ' :: castlingStr gs.castlingRights ++
        ' ' :: (match gs.enPassantTarget with
                | some p => positionToLabel p
                | none => ['-']) ++
        ' ' :: '0' ::
        ' ' :: (toString (gs.moveHistory.length / 2 + 1)).toList) := by
    unfold gameStateToFEN
    rw [hEB]
  have hJs : ' ' ∉ joinSlash [o0, o1, o2, o3, o4, o5, o6, o7] := by
    intro hmem
    rcases mem_joinSlash _ _ hmem with ⟨l, hl, hcl⟩ | hsl
    · fin_cases hl
      · exact (hc0 _ hcl).1 rfl
      · exact (hc1 _ hcl).1 rfl
      · exact (hc2 _ hcl).1 rfl
      · exact (hc3 _ hcl).1 rfl
      · exact (hc4 _ hcl).1 rfl
      · exact (hc5 _ hcl).1 rfl
      · exact (hc6 _ hcl).1 rfl
      · exact (hc7 _ hcl).1 rfl
    · exact absurd hsl (by decide)
  have hCs : ' ' ∉ (if gs.currentPlayer = PieceColor.white then ['w'] else ['b']) := by
    cases hcp2 : gs.currentPlayer <;> decide
  have hCAs : ' ' ∉ castlingStr gs.castlingRights := by
    intro hmem
    exact (castlingStr_contains gs.castlingRights).2.2.2.2 ' ' hmem rfl
  have hEPs : ' ' ∉ (match gs.enPassantTarget with
      | some p => positionToLabel p
      | none => ['-']) := by
    cases hepT2 : gs.enPassantTarget with
    | none => decide
    | some p =>
      have hepV : isValidPosition p = true := by
        have h2 := hep
        rw [hepT2] at h2
        exact h2
      obtain ⟨prr, pcc⟩ := p
      intro hmem
      exact (label_round_trip prr pcc hepV).2.2 ' ' hmem rfl
  have hRows : jsSplit (joinSlash [o0, o1, o2, o3, o4, o5, o6, o7]) '/' =
      [o0, o1, o2, o3, o4, o5, o6, o7] := by
    refine jsSplit_joinSlash _ ?_ (by simp)
    intro l hl
    fin_cases hl
    · intro hmem; exact (hc0 _ hmem).2 rfl
    · intro hmem; exact (hc1 _ hmem).2 rfl
    · intro hmem; exact (hc2 _ hmem).2 rfl
    · intro hmem; exact (hc3 _ hmem).2 rfl
    · intro hmem; exact (hc4 _ hmem).2 rfl
    · intro hmem; exact (hc5 _ hmem).2 rfl
    · intro hmem; exact (hc6 _ hmem).2 rfl
    · intro hmem; exact (hc7 _ hmem).2 rfl
  have hFold : (List.range 8).foldlM
      (fun (b : Board) row =>
        match ([o0, o1, o2, o3, o4, o5, o6, o7] : List (List Char)).get? row with
        | none => none
        | some rowChars =>
          some (b.set row (decodeRowF rowChars (List.replicate 8 none) row 0)))
      (List.replicate 8 (List.replicate 8 none)) =
      some [decodeRowF o0 (List.replicate 8 none) 0 0,
        decodeRowF o1 (List.replicate 8 none) 1 0,
        decodeRowF o2 (List.replicate 8 none) 2 0,
        decodeRowF o3 (List.replicate 8 none) 3 0,
        decodeRowF o4 (List.replicate 8 none) 4 0,
        decodeRowF o5 (List.replicate 8 none) 5 0,
        decodeRowF o6 (List.replicate 8 none) 6 0,
        decodeRowF o7 (List.replicate 8 none) 7 0] := by rfl
  have hParse2 : FENToGameState (joinSlash [o0, o1, o2, o3, o4, o5, o6, o7] ++
      ' ' :: (if gs.currentPlayer = PieceColor.white then ['w'] else ['b']) ++
      ' ' :: castlingStr gs.castlingRights ++
      ' ' :: (match gs.enPassantTarget with
              | some p => positionToLabel p
              | none => ['-']) ++
      ' ' :: '0' ::
      ' ' :: (toString (gs.moveHistory.length / 2 + 1)).toList) =
      some { board := [decodeRowF o0 (List.replicate 8 none) 0 0,
               decodeRowF o1 (List.replicate 8 none) 1 0,
               decodeRowF o2 (List.replicate 8 none) 2 0,
               decodeRowF o3 (List.replicate 8 none) 3 0,
               decodeRowF o4 (List.replicate 8 none) 4 0,
               decodeRowF o5 (List.replicate 8 none) 5 0,
               decodeRowF o6 (List.replicate 8 none) 6 0,
               decodeRowF o7 (List.replicate 8 none) 7 0]
             currentPlayer := if (if gs.currentPlayer = PieceColor.white
                 then ['w'] else ['b']) = ['w'] then PieceColor.white
               else PieceColor.black
             moveHistory := []
             capturedPieces := []
             gameStatus := .playing
             winner := none
             lastMove := none
             enPassantTarget := if (match gs.enPassantTarget with
                 | some p => positionToLabel p
                 | none => ['-']) ≠ ['-'] then
                 labelToPosition (match gs.enPassantTarget with
                   | some p => positionToLabel p
                   | none => ['-'])
               else none
             castlingRights :=
               { whiteKingSide := (castlingStr gs.castlingRights).contains 'K'
                 whiteQueenSide := (castlingStr gs.castlingRights).contains 'Q'
                 blackKingSide := (castlingStr gs.castlingRights).contains 'k'
                 blackQueenSide := (castlingStr gs.castlingRights).contains 'q' } } := by
    rw [FENToGameState_fields _ _ _ _ _ hJs hCs hCAs hEPs]
    rw [hRows]
    rw [hFold]
  refine ⟨_, _, hFEN, hParse2, ?_, ?_, ?_, ?_⟩
  · intro pos
    obtain ⟨pr, pc⟩ := pos
    by_cases hv : isValidPosition ⟨pr, pc⟩ = true
    · have hv' := hv
      simp [isValidPosition] at hv'
      obtain ⟨n, rfl⟩ : ∃ n : Nat, pr = (n : Int) := ⟨pr.toNat, by omega⟩
      obtain ⟨m, rfl⟩ : ∃ m : Nat, pc = (m : Int) := ⟨pc.toNat, by omega⟩
      have hn8 : n < 8 := by omega
      have hm8 : m < 8 := by omega
      dsimp only
      simp only [getPieceAt]
      rw [if_pos hv, if_pos hv]
      rw [hb]
      simp only [bget]
      have hcc : (0 : Int) ≤ (n : Int) ∧ (0 : Int) ≤ (m : Int) := ⟨by omega, by omega⟩
      rw [if_pos hcc, if_pos hcc]
      rw [show ((n : Int)).toNat = n from rfl, show ((m : Int)).toNat = m from rfl]
      interval_cases n
      · exact decodedCell_spec 0 R0 o0 hl0 hw0 ho0 m hm8
      · exact decodedCell_spec 1 R1 o1 hl1 hw1 ho1 m hm8
      · exact decodedCell_spec 2 R2 o2 hl2 hw2 ho2 m hm8
      · exact decodedCell_spec 3 R3 o3 hl3 hw3 ho3 m hm8
      · exact decodedCell_spec 4 R4 o4 hl4 hw4 ho4 m hm8
      · exact decodedCell_spec 5 R5 o5 hl5 hw5 ho5 m hm8
      · exact decodedCell_spec 6 R6 o6 hl6 hw6 ho6 m hm8
      · exact decodedCell_spec 7 R7 o7 hl7 hw7 ho7 m hm8
    · simp only [getPieceAt]
      rw [if_neg hv, if_neg hv]
  · dsimp only
    cases hcp3 : gs.currentPlayer
    · rfl
    · rfl
  · dsimp only
    obtain ⟨hK, hQ, hk2, hq2, -⟩ := castlingStr_contains gs.castlingRights
    rw [hK, hQ, hk2, hq2]
  · dsimp only
    cases hepT : gs.enPassantTarget with
    | none => simp
    | some p =>
      have hepV : isValidPosition p = true := by
        have h2 := hep
        rw [hepT] at h2
        exact h2
      obtain ⟨prr, pcc⟩ := p
      obtain ⟨hlab, hne, -⟩ := label_round_trip prr pcc hepV
      dsimp only
      rw [if_pos hne, hlab]

/-- C4 witness: the round trip holds at the concrete mixed position `gsC4`. -/
theorem c4_fen_round_trip_witness :
    wellFormedState gsC4 ∧
    ∃ fen gs', gameStateToFEN gsC4 = some fen ∧ FENToGameState fen = some gs' ∧
      (∀ pos : Position,
        (getPieceAt gs'.board pos).map (fun p => (p.type, p.color)) =
          (getPieceAt gsC4.board pos).map (fun p => (p.type, p.color))) ∧
      gs'.currentPlayer = gsC4.currentPlayer ∧
      gs'.castlingRights = gsC4.castlingRights ∧
      gs'.enPassantTarget = gsC4.enPassantTarget :=
  ⟨⟨⟨by decide, by decide⟩, by decide, by decide⟩,
   c4_fen_round_trip gsC4 ⟨⟨by decide, by decide⟩, by decide, by decide⟩⟩

end Chess
